import Mathlib

/-!
# Verification of the tqsdk-go DIFF data manager

Shallow embedding of the repository's core data structures and operations:

* `GoVal` models the dynamic `interface{}` values flowing through the
  `DataManager` (`src/datamanager.go`): JSON-decoded values are `null`,
  `bool`, `float64`, `string`, `[]interface{}`, `map[string]interface{}`;
  locally built values additionally use Go `int`/`int64` (modelled by
  `vint`; `int32`/`float32` never arise on the modelled paths).  `float64`
  is modelled by a rational number: no NaN/Inf float ever reaches the
  modelled code (JSON cannot encode them and the repository never builds
  them), and all modelled comparisons/truncations are exact on rationals.
* A Go `map[string]interface{}` is modelled as an association list
  (`Obj`).  Go map iteration order is unspecified; the merge writes
  distinct source keys to distinct target keys, so the merged map is
  iteration-order independent and the fixed list order is faithful.
  Observations are made through `lookupObj`/`nodeAt`, never through the
  raw list structure.
-/

namespace TqGo

inductive GoVal where
  | vnull
  | vbool (b : Bool)
  | vint (n : Int)
  | vfloat (q : ℚ)
  | vstr (s : String)
  | varr (xs : List GoVal)
  | vobj (m : List (String × GoVal))

open GoVal

/-- A Go `map[string]interface{}` (association list representation). -/
abbrev Obj := List (String × GoVal)

/-- Go map read `m[k]` (first binding wins; maps never hold duplicates). -/
def lookupObj : Obj → String → Option GoVal
  | [], _ => none
  | (k', v) :: rest, k => if k' = k then some v else lookupObj rest k

/-- Go map write `m[k] = v`: replace the binding if present, else append. -/
def setKey : Obj → String → GoVal → Obj
  | [], k, v => [(k, v)]
  | (k', v') :: rest, k, v =>
      if k' = k then (k, v) :: rest else (k', v') :: setKey rest k v

/-- Go map delete `delete(m, k)`. -/
def eraseKey (m : Obj) (k : String) : Obj :=
  m.filter (fun e => e.1 ≠ k)

@[simp] theorem lookupObj_nil (k : String) : lookupObj [] k = none := rfl

theorem lookupObj_cons (k' : String) (v : GoVal) (rest : Obj) (k : String) :
    lookupObj ((k', v) :: rest) k =
      if k' = k then some v else lookupObj rest k := rfl

@[simp] theorem lookupObj_setKey_self (m : Obj) (k : String) (v : GoVal) :
    lookupObj (setKey m k v) k = some v := by
  induction m with
  | nil => simp [setKey, lookupObj]
  | cons e rest ih =>
      obtain ⟨k', v'⟩ := e
      by_cases h : k' = k <;> simp [setKey, lookupObj, h, ih]

@[simp] theorem lookupObj_setKey_ne (m : Obj) (k k' : String) (v : GoVal)
    (h : k ≠ k') : lookupObj (setKey m k v) k' = lookupObj m k' := by
  induction m with
  | nil => simp [setKey, lookupObj, h]
  | cons e rest ih =>
      obtain ⟨k₀, v₀⟩ := e
      by_cases h₀ : k₀ = k
      · subst h₀; simp [setKey, lookupObj, h]
      · simp only [setKey, if_neg h₀]
        by_cases h₁ : k₀ = k' <;> simp [lookupObj, h₁, ih]

theorem eraseKey_cons (k₀ : String) (v₀ : GoVal) (rest : Obj) (k : String) :
    eraseKey ((k₀, v₀) :: rest) k =
      if k₀ = k then eraseKey rest k else (k₀, v₀) :: eraseKey rest k := by
  by_cases h : k₀ = k <;> simp [eraseKey, List.filter_cons, h]

@[simp] theorem lookupObj_eraseKey_self (m : Obj) (k : String) :
    lookupObj (eraseKey m k) k = none := by
  induction m with
  | nil => simp [eraseKey]
  | cons e rest ih =>
      obtain ⟨k', v'⟩ := e
      rw [eraseKey_cons]
      by_cases h : k' = k <;> simp [h, lookupObj, ih]

@[simp] theorem lookupObj_eraseKey_ne (m : Obj) (k k' : String) (h : k ≠ k') :
    lookupObj (eraseKey m k) k' = lookupObj m k' := by
  induction m with
  | nil => simp [eraseKey]
  | cons e rest ih =>
      obtain ⟨k₀, v₀⟩ := e
      rw [eraseKey_cons]
      by_cases h₀ : k₀ = k
      · subst h₀
        have h' : ¬k₀ = k' := h
        simp [h', lookupObj, ih]
      · have h₂ : ¬k' = k := fun hc => h hc.symm
        by_cases h₁ : k₀ = k' <;> simp [h₀, h₁, h₂, lookupObj, ih]

/-- If the binding already holds exactly `v`, the write is the identity. -/
theorem setKey_eq_self (m : Obj) (k : String) (v : GoVal)
    (h : lookupObj m k = some v) : setKey m k v = m := by
  induction m with
  | nil => simp [lookupObj] at h
  | cons e rest ih =>
      obtain ⟨k', v'⟩ := e
      by_cases h₀ : k' = k
      · subst h₀
        simp [lookupObj] at h
        simp [setKey, h]
      · simp [lookupObj, h₀] at h
        simp [setKey, h₀, ih h]

/-! ## Epoch tagging (`setEpoch` / `getEpoch`, src/datamanager.go:320-346) -/

/-- Go `int64(f)` on a float64: truncation toward zero (exact on the
rationals that model the repository's float values). -/
def goTrunc (q : ℚ) : Int := if 0 ≤ q then ⌊q⌋ else ⌈q⌉

/-- Go `getEpoch`: the `_epoch` tag of a mapping; `int64`, `int` and
`float64` tags are accepted, anything else (or a non-mapping) is not. -/
def getEpochVal : GoVal → Option Int
  | .vobj m =>
      match lookupObj m "_epoch" with
      | some (.vint n) => some n
      | some (.vfloat q) => some (goTrunc q)
      | _ => none
  | _ => none

/-- Go `setEpoch` on a mapping: write the `_epoch` tag (on arrays it is a
no-op, reflected by the callers below never stamping arrays). -/
def setEpochObj (epoch : Int) (m : Obj) : Obj :=
  setKey m "_epoch" (.vint epoch)

/-! ## The DIFF merge (`mergeObject` / `mergeQuotes`, src/datamanager.go:146-217)

`mergeObject target source` iterates the source entries (`mergeEntries` /
`mergeOne`), then stamps `_epoch` on the target.  The `quotes` key takes
the specialized `mergeQuotes` path (`mergeQEntries` / `mergeQOne`): the
quotes container is created or replaced when it is not a mapping, null
entries delete the quote when `deleteNullObj`, non-mapping entries are
skipped, and each quote sub-mapping is merged recursively — the container
itself is never stamped. -/

mutual

def mergeObject (epoch : Int) (dnull : Bool) (target source : Obj) : Obj :=
  setEpochObj epoch (mergeEntries epoch dnull target source)
termination_by sizeOf source + 2

def mergeEntries (epoch : Int) (dnull : Bool) (target : Obj) : Obj → Obj
  | [] => target
  | (property, value) :: rest =>
      mergeEntries epoch dnull (mergeOne epoch dnull target property value) rest
termination_by s => sizeOf s + 1

def mergeOne (epoch : Int) (dnull : Bool) (target : Obj) (property : String)
    (value : GoVal) : Obj :=
  match value with
  | .vnull => if dnull then eraseKey target property else target
  | .vstr s =>
      if s = "NaN" ∨ s = "-" then setKey target property .vnull
      else setKey target property (.vstr s)
  | .vbool b => setKey target property (.vbool b)
  | .vint n => setKey target property (.vint n)
  | .vfloat q => setKey target property (.vfloat q)
  | .varr xs => setKey target property (.varr xs)
  | .vobj v =>
      let t1 := if (lookupObj target property).isNone
                then setKey target property (.vobj []) else target
      if property = "quotes" then
        let qm : Obj :=
          match lookupObj t1 "quotes" with
          | some (.vobj m) => m
          | _ => []
        setKey t1 "quotes" (.vobj (mergeQEntries epoch dnull qm v))
      else
        match lookupObj t1 property with
        | some (.vobj tm) =>
            setKey t1 property (.vobj (mergeObject epoch dnull tm v))
        | _ => t1
termination_by sizeOf value + 2

def mergeQEntries (epoch : Int) (dnull : Bool) (quotesMap : Obj) : Obj → Obj
  | [] => quotesMap
  | (symbol, quoteData) :: rest =>
      mergeQEntries epoch dnull
        (mergeQOne epoch dnull quotesMap symbol quoteData) rest
termination_by s => sizeOf s + 1

def mergeQOne (epoch : Int) (dnull : Bool) (quotesMap : Obj) (symbol : String)
    (quoteData : GoVal) : Obj :=
  match quoteData with
  | .vnull => if dnull then eraseKey quotesMap symbol else quotesMap
  | .vobj qv =>
      let q1 := if (lookupObj quotesMap symbol).isNone
                then setKey quotesMap symbol (.vobj []) else quotesMap
      match lookupObj q1 symbol with
      | some (.vobj tq) =>
          setKey q1 symbol (.vobj (mergeObject epoch dnull tq qv))
      | _ => q1
  | _ => quotesMap
termination_by sizeOf quoteData + 2

end

/-! ## Path-indexed access to the document tree -/

/-- The value reached from a root value by descending mapping keys; only
mappings can be descended (matching `GetByPath` / `IsChanging` walks). -/
def nodeAt : GoVal → List String → Option GoVal
  | v, [] => some v
  | .vobj m, k :: ks =>
      match lookupObj m k with
      | some v => nodeAt v ks
      | none => none
  | _, _ :: _ => none

/-- Go `GetByPath` (src/datamanager.go:250-273): walk the path; intermediate
hops must be mappings; the terminal value is returned as-is; `none`
models the Go `nil` returned on a missing key or a non-mapping hop. -/
def getByPathObj (d : Obj) : List String → Option GoVal
  | [] => some (.vobj d)
  | [k] => lookupObj d k
  | k :: rest =>
      match lookupObj d k with
      | some (.vobj m) => getByPathObj m rest
      | _ => none

/-! ## Source normalization (`MergeData`, src/datamanager.go:89-114) -/

/-- Insertion of an entry into a key-sorted association list. -/
def insertByKey (e : String × GoVal) : Obj → Obj
  | [] => [e]
  | e' :: rest =>
      if e.1 ≤ e'.1 then e :: e' :: rest else e' :: insertByKey e rest

/-- Key-sorted copy of an association list (models the unordered Go map
produced by `json.Unmarshal`; JSON marshalling sorts map keys). -/
def sortByKey (m : Obj) : Obj := m.foldr insertByKey []

mutual

/-- The Go `json.Marshal` / `json.Unmarshal` round trip through
`interface{}`: every number comes back as a `float64`, maps are
canonically key-sorted (our representation of the unordered result). -/
def jsonCanon : GoVal → GoVal
  | .vnull => .vnull
  | .vbool b => .vbool b
  | .vint n => .vfloat n
  | .vfloat q => .vfloat q
  | .vstr s => .vstr s
  | .varr xs => .varr (jsonCanonList xs)
  | .vobj m => .vobj (sortByKey (jsonCanonObj m))
termination_by v => sizeOf v

def jsonCanonList : List GoVal → List GoVal
  | [] => []
  | v :: rest => jsonCanon v :: jsonCanonList rest
termination_by xs => sizeOf xs

def jsonCanonObj : Obj → Obj
  | [] => []
  | (k, v) :: rest => (k, jsonCanon v) :: jsonCanonObj rest
termination_by m => sizeOf m

end

/-- The dynamic shapes a `MergeData` source argument can take:
`[]map[string]interface{}`, `map[string]interface{}`, `[]interface{}`
(filtered to its mappings), or any other value (JSON round-tripped; the
round trip yields a mapping only when the value itself is one, and Go's
`json.Unmarshal` of `null` into a map leaves a nil = empty map). -/
inductive MergeSource where
  | arrMaps (xs : List Obj)
  | oneMap (m : Obj)
  | arrAny (xs : List GoVal)
  | other (v : GoVal)

/-- Normalization of the source to a list of mappings
(src/datamanager.go:89-114); `none` models the silent early return. -/
def normalizeSource : MergeSource → Option (List Obj)
  | .arrMaps xs => some xs
  | .oneMap m => some [m]
  | .arrAny xs =>
      some (xs.filterMap fun v =>
        match v with
        | .vobj m => some m
        | _ => none)
  | .other v =>
      match jsonCanon v with
      | .vobj m => some [m]
      | .vnull => some [[]]
      | _ => none

/-! ## The DataManager store -/

/-- The `DataManager` fields the merge path reads and writes
(src/datamanager.go:31-44; locks, callbacks and watchers are
concurrency plumbing outside the shallow embedding). -/
structure DM where
  epoch : Int
  data : Obj
  diffs : List Obj

/-- Go `MergeData` (src/datamanager.go:82-143): normalize the source (silent
no-op on failure), on `epochIncrease` bump the epoch and record the
normalized list as the diff batch, then merge each non-empty item into
the root at the (possibly bumped) epoch. -/
def mergeData (dm : DM) (source : MergeSource) (epochIncrease dnull : Bool) : DM :=
  match normalizeSource source with
  | none => dm
  | some arr =>
      let ep := if epochIncrease then dm.epoch + 1 else dm.epoch
      let df := if epochIncrease then arr else dm.diffs
      let d := arr.foldl
        (fun acc item => if item.isEmpty then acc else mergeObject ep dnull acc item)
        dm.data
      { epoch := ep, data := d, diffs := df }

/-- The walk of `IsChanging` (src/datamanager.go:220-247), on a raw tree:
missing key → false; a hop whose `_epoch` equals the store epoch → true;
a non-terminal hop that is not a mapping → false; exhausted → false. -/
def isChangingAux (epoch : Int) (d : Obj) : List String → Bool
  | [] => false
  | key :: rest =>
      match lookupObj d key with
      | none => false
      | some val =>
          if getEpochVal val = some epoch then true
          else
            match rest, val with
            | [], _ => false
            | _ :: _, .vobj m => isChangingAux epoch m rest
            | _ :: _, _ => false

def DM.isChanging (dm : DM) (pathArray : List String) : Bool :=
  isChangingAux dm.epoch dm.data pathArray

def DM.getByPath (dm : DM) (pathArray : List String) : Option GoVal :=
  getByPathObj dm.data pathArray

/-- The mapping values inspected by the `IsChanging` walk: each found hop
value, descending only through mappings (the specification's "values
encountered while walking the path"). -/
def walkEncounters (d : Obj) : List String → List GoVal
  | [] => []
  | key :: rest =>
      match lookupObj d key with
      | none => []
      | some v =>
          v :: (match rest, v with
                | [], _ => []
                | _ :: _, .vobj m => walkEncounters m rest
                | _ :: _, _ => [])

/-- Go `SetDefault` (src/datamanager.go:276-304): walk creating intermediate
mappings, set the terminal key when absent; a non-mapping intermediate
aborts and returns Go `nil` (= `vnull`), keeping intermediates already
created.  Returns (new root, returned value). -/
def setDefault (d : Obj) : List String → GoVal → Obj × GoVal
  | [], _ => (d, .vobj d)
  | [key], defaultValue =>
      match lookupObj d key with
      | some v => (d, v)
      | none => (setKey d key defaultValue, defaultValue)
  | key :: rest@(_ :: _), defaultValue =>
      match lookupObj d key with
      | none =>
          let r := setDefault [] rest defaultValue
          (setKey d key (.vobj r.1), r.2)
      | some (.vobj m) =>
          let r := setDefault m rest defaultValue
          (setKey d key (.vobj r.1), r.2)
      | some _ => (d, .vnull)

/-! ## K-line / tick series extraction (src/datamanager.go:410-511, 677-785) -/

/-- Go `toInt64` (src/datamanager.go:772-785): `int64`/`int` (`vint`) and
`float64`/`float32` (`vfloat`, truncating) coerce; every other dynamic
type yields 0. -/
def toInt64 : GoVal → Int
  | .vint n => n
  | .vfloat q => goTrunc q
  | _ => 0

/-- Go `strings.Contains`. -/
def strContains (s sub : String) : Bool := decide (sub.data <:+: s.data)

/-- Decimal digit run to its value; `none` on empty or non-digit input. -/
def parseDigits (ds : List Char) : Option Nat :=
  if ds.isEmpty then none
  else if ds.all (·.isDigit) then
    some (ds.foldl (fun acc c => acc * 10 + (c.toNat - 48)) 0)
  else none

/-- Go `strconv.ParseInt(s, 10, 64)`: optional sign, decimal digits,
64-bit range check; `none` models the error return. -/
def parseIntStr (s : String) : Option Int :=
  let core : List Char → Int → Option Int := fun ds sign =>
    match parseDigits ds with
    | none => none
    | some n =>
        let v : Int := sign * n
        if -(2 ^ 63) ≤ v ∧ v < 2 ^ 63 then some v else none
  match s.data with
  | '+' :: rest => core rest 1
  | '-' :: rest => core rest (-1)
  | ds => core ds 1

/-- The id a bar obtains from `ConvertToStruct` (via the `"id"` JSON
field, default 0) before the map key overwrites it; `none` models a
failed conversion (non-object bar value, or a non-integer `"id"` field;
Go also skips bars whose other typed fields fail to decode — a strict
subset of the bars kept here, and none of the verified statements
depend on which bars survive). -/
def payloadIdOf : GoVal → Option Int
  | .vnull => some 0
  | .vobj m =>
      match lookupObj m "id" with
      | none => some 0
      | some (.vint n) => some n
      | some (.vfloat q) => if q.den = 1 then some q.num else none
      | some _ => none
  | _ => none

/-- The id of the bar stored under key `k`: parse the key, else fall back
to the converted payload id; `none` when the bar is skipped. -/
def barIdOf (k : String) (v : GoVal) : Option Int :=
  (payloadIdOf v).map fun pid => (parseIntStr k).getD pid

/-- The ids of the surviving bars of a series `data` map. -/
def rawSeriesIds (entries : Obj) : List Int :=
  entries.filterMap fun e => barIdOf e.1 e.2

/-- Sorting (Go `sort.Slice`) ascending by id: on a list of integers any correct sort
produces the same list, so insertion sort is extensionally faithful. -/
def sortIds (l : List Int) : List Int := List.insertionSort (· ≤ ·) l

/-- The first matching chart's `right_id` (src/datamanager.go:465-483):
the chart whose `state.ins_list` contains the symbol and whose
`state.duration` coerces to the series duration; −1 when the match has
no `right_id` or no chart matches. -/
def chartsRightId (symbol : String) (duration : Int) : List (String × GoVal) → Int
  | [] => -1
  | (_, chartData) :: rest =>
      match chartData with
      | .vobj chartMap =>
          match lookupObj chartMap "state" with
          | some (.vobj state) =>
              match lookupObj state "ins_list" with
              | some (.vstr insList) =>
                  if strContains insList symbol then
                    match lookupObj state "duration" with
                    | some dur =>
                        if toInt64 dur = duration then
                          match lookupObj chartMap "right_id" with
                          | some rid => toInt64 rid
                          | none => -1
                        else chartsRightId symbol duration rest
                    | none => chartsRightId symbol duration rest
                  else chartsRightId symbol duration rest
              | _ => chartsRightId symbol duration rest
          | _ => chartsRightId symbol duration rest
      | _ => chartsRightId symbol duration rest

def resolveRightId (data : Obj) (symbol : String) (duration : Int) : Int :=
  match getByPathObj data ["charts"] with
  | some (.vobj chartsMap) => chartsRightId symbol duration chartsMap
  | _ => -1

/-- The view-width trim: keep only the trailing `vw` elements when the
list is longer and `vw > 0`. -/
def trimTrailing (vw : Int) (l : List Int) : List Int :=
  if vw > 0 ∧ (l.length : Int) > vw then l.drop (l.length - vw.toNat) else l

/-- The shared id pipeline of `GetKlinesData` / `GetTicksData`: sort,
truncate at the first id `> right_id` when `right_id > 0` (the
`sort.Search` cut on the sorted list), then keep the trailing
view-width slice. -/
def seriesView (allIds : List Int) (rightID : Int) (vw : Int) : List Int :=
  let sorted := sortIds allIds
  let filtered := if rightID > 0 then sorted.takeWhile (· ≤ rightID) else sorted
  trimTrailing vw filtered

/-- The effective view width: the positive variadic argument if given,
else the configured default (src/datamanager.go:496-500). -/
def resolveVW (defaultVW : Int) : Option Int → Int
  | some w => if w > 0 then w else defaultVW
  | none => defaultVW

/-- The id sequence of `GetKlinesData(symbol, duration, viewWidth...)`
(src/datamanager.go:410-511); `none` models the two error returns
(series missing / not a mapping); a missing or malformed `data` field
yields the empty series. -/
def getKlinesIds (data : Obj) (defaultVW : Int) (symbol : String)
    (duration : Int) (viewWidth : Option Int) : Option (List Int) :=
  match getByPathObj data ["klines", symbol, toString duration] with
  | some (.vobj dataMap) =>
      some (match lookupObj dataMap "data" with
        | some (.vobj klineMap) =>
            seriesView (rawSeriesIds klineMap)
              (resolveRightId data symbol duration) (resolveVW defaultVW viewWidth)
        | _ => [])
  | _ => none

/-- The id sequence of `GetTicksData(symbol, viewWidth...)`
(src/datamanager.go:677-769); the chart match uses duration 0. -/
def getTicksIds (data : Obj) (defaultVW : Int) (symbol : String)
    (viewWidth : Option Int) : Option (List Int) :=
  match getByPathObj data ["ticks", symbol] with
  | some (.vobj dataMap) =>
      some (match lookupObj dataMap "data" with
        | some (.vobj tickMap) =>
            seriesView (rawSeriesIds tickMap) (resolveRightId data symbol 0)
              (resolveVW defaultVW viewWidth)
        | _ => [])
  | _ => none

/-- The pre-pipeline bar ids of a K-line series (the ids entering the
sort of `GetKlinesData`); `none` exactly when `GetKlinesData` errors. -/
def klinesRawIds (data : Obj) (symbol : String) (duration : Int) :
    Option (List Int) :=
  match getByPathObj data ["klines", symbol, toString duration] with
  | some (.vobj dataMap) =>
      some (match lookupObj dataMap "data" with
        | some (.vobj klineMap) => rawSeriesIds klineMap
        | _ => [])
  | _ => none

/-- The pre-pipeline ids of a tick series. -/
def ticksRawIds (data : Obj) (symbol : String) : Option (List Int) :=
  match getByPathObj data ["ticks", symbol] with
  | some (.vobj dataMap) =>
      some (match lookupObj dataMap "data" with
        | some (.vobj tickMap) => rawSeriesIds tickMap
        | _ => [])
  | _ => none

/-! ## The write footprint of a merge

`touchesMerge dnull source path` over-approximates, structurally along
the merge recursion, whether `mergeObject _ dnull target source` can
write at `path` for some target: the merged node itself and its
`_epoch` tag are always touched; a source key touches its subtree
according to its value (scalars, sequences and delete-null wholesale;
sub-mappings recursively; the `quotes` key through the specialized
per-symbol path).  A path it rules out is read-only for the merge. -/

mutual

def touchesMerge (dnull : Bool) (s : Obj) : List String → Bool
  | [] => true
  | k :: ks => k = "_epoch" || touchesEntriesAt dnull s k ks
termination_by _ => sizeOf s + 2

def touchesEntriesAt (dnull : Bool) (s : Obj) (k : String)
    (ks : List String) : Bool :=
  match s with
  | [] => false
  | (k', v) :: rest =>
      (k' = k && touchesVal dnull k v ks) || touchesEntriesAt dnull rest k ks
termination_by sizeOf s + 1

def touchesVal (dnull : Bool) (k : String) (v : GoVal)
    (ks : List String) : Bool :=
  match v with
  | .vnull => dnull
  | .vobj sv =>
      if k = "quotes" then
        match ks with
        | [] => true
        | sym :: ks' => touchesQuoteAt dnull sv sym ks'
      else touchesMerge dnull sv ks
  | _ => true
termination_by sizeOf v + 2

def touchesQuoteAt (dnull : Bool) (sv : Obj) (sym : String)
    (ks' : List String) : Bool :=
  match sv with
  | [] => false
  | (s', qv) :: rest =>
      (s' = sym && touchesQVal dnull qv ks') || touchesQuoteAt dnull rest sym ks'
termination_by sizeOf sv + 1

def touchesQVal (dnull : Bool) (qv : GoVal) (ks' : List String) : Bool :=
  match qv with
  | .vnull => dnull
  | .vobj qsv => touchesMerge dnull qsv ks'
  | _ => false
termination_by sizeOf qv + 2

end

/-- Whether some item of a normalized diff batch can write at `path`
(empty items are skipped by the merge loop). -/
def touchesAny (dnull : Bool) (arr : List Obj) (p : List String) : Bool :=
  arr.any fun item => !item.isEmpty && touchesMerge dnull item p

/-! ## Quote websocket request recording (src/datamanager.go:1557-1653) -/

mutual

/-- Structural equality of dynamic values (used on the canonical JSON
forms, where it coincides with Go's `json.Marshal` byte equality). -/
def goValBEq : GoVal → GoVal → Bool
  | .vnull, .vnull => true
  | .vbool a, .vbool b => a = b
  | .vint a, .vint b => a = b
  | .vfloat a, .vfloat b => a = b
  | .vstr a, .vstr b => a = b
  | .varr a, .varr b => goValListBEq a b
  | .vobj a, .vobj b => goValObjBEq a b
  | _, _ => false
termination_by a _ => sizeOf a

def goValListBEq : List GoVal → List GoVal → Bool
  | [], [] => true
  | a :: as, b :: bs => goValBEq a b && goValListBEq as bs
  | _, _ => false
termination_by a _ => sizeOf a

def goValObjBEq : Obj → Obj → Bool
  | [], [] => true
  | (k, v) :: as, (k', v') :: bs => k = k' && goValBEq v v' && goValObjBEq as bs
  | _, _ => false
termination_by a _ => sizeOf a

end

/-- The replayable requests a `TqQuoteWebsocket` records: the last
`subscribe_quote` and the `set_chart` requests keyed by `chart_id`. -/
structure QWState where
  subscribeQuote : Option Obj
  charts : List (String × Obj)

def setChart : List (String × Obj) → String → Obj → List (String × Obj)
  | [], k, v => [(k, v)]
  | (k', v') :: rest, k, v =>
      if k' = k then (k, v) :: rest else (k', v') :: setChart rest k v

def eraseChart (m : List (String × Obj)) (k : String) : List (String × Obj) :=
  m.filter fun e => e.1 ≠ k

/-- Go marshal comparison of the `ins_list` fields (a missing key indexes
to `nil`, which marshals as `null`). -/
def insListMarshalEq (a b : Obj) : Bool :=
  goValBEq (jsonCanon ((lookupObj a "ins_list").getD .vnull))
    (jsonCanon ((lookupObj b "ins_list").getD .vnull))

/-- Go `TqQuoteWebsocket.Send` (src/datamanager.go:1611-1653): record
`subscribe_quote` (dropping an identical resend) and `set_chart` (a
`float64` `view_width` equal to 0 erases the record, anything else
overwrites); returns the new state and the objects forwarded to the
base `Send`. -/
def quoteSend (st : QWState) (obj : GoVal) : QWState × List GoVal :=
  match obj with
  | .vobj m =>
      match lookupObj m "aid" with
      | some (.vstr aid) =>
          if aid = "subscribe_quote" then
            match st.subscribeQuote with
            | none => ({ st with subscribeQuote := some m }, [obj])
            | some old =>
                if insListMarshalEq old m then (st, [])
                else ({ st with subscribeQuote := some m }, [obj])
          else if aid = "set_chart" then
            match lookupObj m "chart_id" with
            | some (.vstr chartID) =>
                let charts' :=
                  match lookupObj m "view_width" with
                  | some (.vfloat q) =>
                      if q = 0 then eraseChart st.charts chartID
                      else setChart st.charts chartID m
                  | _ => setChart st.charts chartID m
                ({ st with charts := charts' }, [obj])
            | _ => (st, [obj])
          else (st, [obj])
      | _ => (st, [obj])
  | _ => (st, [obj])

/-- The chart replay loop of the reconnect handler
(src/datamanager.go:1600-1606): re-send, through `Send`, every recorded
chart whose `view_width` is a `float64` strictly greater than 0. -/
def replayCharts (st : QWState) : List (String × Obj) → QWState × List GoVal
  | [] => (st, [])
  | (_, chart) :: rest =>
      match lookupObj chart "view_width" with
      | some (.vfloat q) =>
          if q > 0 then
            let r := quoteSend st (.vobj chart)
            let r2 := replayCharts r.1 rest
            (r2.1, r.2 ++ r2.2)
          else replayCharts st rest
      | _ => replayCharts st rest

/-- The `OnReconnect` handler (src/datamanager.go:1595-1607): re-send the
recorded `subscribe_quote` if any, then replay the recorded charts. -/
def quoteOnReconnect (st : QWState) : QWState × List GoVal :=
  match st.subscribeQuote with
  | none => replayCharts st st.charts
  | some sq =>
      let r1 := quoteSend st (.vobj sq)
      let r2 := replayCharts r1.1 r1.1.charts
      (r2.1, r1.2 ++ r2.2)

/-! ## TradeSession.InsertOrder (src/shinny/v1alpha1/client_test.go:596-676) -/

structure InsertOrderRequest where
  symbol : String
  direction : String
  offset : String
  priceType : String
  limitPrice : ℚ
  volume : Int

/-- The state `InsertOrder` touches: the session's logged-in flag, its
user id and its own document store. -/
structure TSState where
  loggedIn : Bool
  userID : String
  dm : DM

/-- Go `strings.Split(s, ".")` on the character list: split at every
dot; no dot yields the whole input as the single part. -/
def splitDotChars : List Char → List (List Char)
  | [] => [[]]
  | c :: rest =>
      if c = '.' then [] :: splitDotChars rest
      else
        match splitDotChars rest with
        | g :: gs => (c :: g) :: gs
        | [] => [[c]]

/-- Go `strings.Split(s, ".")`. -/
def goSplitDot (s : String) : List String :=
  (splitDotChars s.data).map List.asString

/-- The fields shared by the protocol envelope and the locally seeded
order (`orderCommon` in the source): `volume_condition = "ANY"`,
`time_condition = "IOC"` iff the price type is `"ANY"`, else `"GFD"`. -/
def orderCommonObj (userID orderID ex ins : String)
    (req : InsertOrderRequest) : Obj :=
  [("user_id", .vstr userID), ("order_id", .vstr orderID),
   ("exchange_id", .vstr ex), ("instrument_id", .vstr ins),
   ("direction", .vstr req.direction), ("offset", .vstr req.offset),
   ("price_type", .vstr req.priceType),
   ("limit_price", .vfloat req.limitPrice),
   ("volume_condition", .vstr "ANY"),
   ("time_condition",
    .vstr (if req.priceType = "ANY" then "IOC" else "GFD"))]

/-- The outgoing `insert_order` envelope. -/
def orderInsertObj (userID orderID ex ins : String)
    (req : InsertOrderRequest) : Obj :=
  [("aid", .vstr "insert_order"), ("volume", .vint req.volume)] ++
    orderCommonObj userID orderID ex ins req

/-- The locally seeded order state (`orderInit` in the source). -/
def orderInitObj (userID orderID ex ins : String)
    (req : InsertOrderRequest) : Obj :=
  [("volume_orign", .vint req.volume), ("status", .vstr "ALIVE"),
   ("volume_left", .vint req.volume)] ++
    orderCommonObj userID orderID ex ins req

/-- Go `TradeSession.InsertOrder`: reject when not logged in or the symbol
does not split into exactly exchange and instrument; compose the
`insert_order` envelope; seed the order locally with
`status = "ALIVE"` and `volume_left = volume` through a
non-epoch-increasing, non-deleting merge.  The random order-id suffix
is a parameter; the result carries the new session state and the
envelope passed to the websocket `Send`. -/
def insertOrder (ts : TSState) (req : InsertOrderRequest) (rand8 : String) :
    Option (TSState × Obj) :=
  if !ts.loggedIn then none
  else
    match goSplitDot req.symbol with
    | [exchangeID, instrumentID] =>
        let orderID := "TQGO_" ++ rand8
        let dm' := mergeData ts.dm
          (.oneMap
            [("trade", .vobj
              [(ts.userID, .vobj
                [("orders", .vobj
                  [(orderID, .vobj
                    (orderInitObj ts.userID orderID exchangeID instrumentID
                      req))])])])])
          false false
        some ({ ts with dm := dm' },
          orderInsertObj ts.userID orderID exchangeID instrumentID req)
    | _ => none

/-! ## Shared lemmas -/

def GoVal.isObj : GoVal → Bool
  | .vobj _ => true
  | _ => false

/-- A target slot the merge can descend into: absent or a mapping. -/
def nodeOk (o : Option GoVal) : Prop :=
  o = none ∨ ∃ m, o = some (.vobj m)

@[simp] theorem nodeAt_nil (v : GoVal) : nodeAt v [] = some v := by
  cases v <;> rfl

theorem nodeAt_obj_cons (m : Obj) (k : String) (ks : List String) :
    nodeAt (.vobj m) (k :: ks) =
      match lookupObj m k with
      | some v => nodeAt v ks
      | none => none := rfl

theorem getByPathObj_eq_nodeAt (d : Obj) (p : List String) :
    getByPathObj d p = nodeAt (.vobj d) p := by
  induction p generalizing d with
  | nil => rfl
  | cons k ks ih =>
      match ks with
      | [] =>
          simp only [getByPathObj, nodeAt_obj_cons]
          cases lookupObj d k <;> simp
      | k' :: ks' =>
          simp only [getByPathObj, nodeAt_obj_cons]
          cases h : lookupObj d k with
          | none => rfl
          | some v => cases v <;> simp [ih, nodeAt]

/-- The function `mergeOne` writes only at its own key. -/
theorem lookupObj_mergeOne_ne (E : Int) (d : Bool) (t : Obj) (prop : String)
    (v : GoVal) (k : String) (h : prop ≠ k) :
    lookupObj (mergeOne E d t prop v) k = lookupObj t k := by
  cases v with
  | vnull => by_cases hd : d <;> simp [mergeOne, hd, h]
  | vbool b => simp [mergeOne, h]
  | vint n => simp [mergeOne, h]
  | vfloat q => simp [mergeOne, h]
  | vstr s =>
      by_cases hs : s = "NaN" ∨ s = "-" <;> simp [mergeOne, hs, h]
  | varr xs => simp [mergeOne, h]
  | vobj sv =>
      simp only [mergeOne]
      by_cases he : (lookupObj t prop).isNone = true
      · simp only [he, if_true]
        by_cases hq : prop = "quotes"
        · subst hq
          simp [lookupObj_setKey_ne _ _ _ _ h]
        · simp only [if_neg hq, lookupObj_setKey_self]
          simp [lookupObj_setKey_ne _ _ _ _ h]
      · simp only [he, if_false]
        by_cases hq : prop = "quotes"
        · subst hq
          simp [lookupObj_setKey_ne _ _ _ _ h]
        · simp only [if_neg hq]
          cases hl : lookupObj t prop with
          | none => simp [hl] at he
          | some w => cases w <;> simp [hl, lookupObj_setKey_ne _ _ _ _ h]

/-- The function `mergeEntries` writes only at the source keys. -/
theorem lookupObj_mergeEntries_not_key (E : Int) (d : Bool) (s : Obj)
    (t : Obj) (k : String) (h : ∀ e ∈ s, e.1 ≠ k) :
    lookupObj (mergeEntries E d t s) k = lookupObj t k := by
  induction s generalizing t with
  | nil => simp [mergeEntries]
  | cons e rest ih =>
      obtain ⟨prop, v⟩ := e
      rw [mergeEntries]
      rw [ih _ fun e he => h e (List.mem_cons_of_mem _ he)]
      exact lookupObj_mergeOne_ne E d t prop v k (h _ (List.mem_cons_self _ _))

/-- The function `mergeObject` writes only at the source keys and the `_epoch` tag. -/
theorem lookupObj_mergeObject_not_key (E : Int) (d : Bool) (s t : Obj)
    (k : String) (hk : k ≠ "_epoch") (h : ∀ e ∈ s, e.1 ≠ k) :
    lookupObj (mergeObject E d t s) k = lookupObj t k := by
  rw [mergeObject, setEpochObj,
    lookupObj_setKey_ne _ _ _ _ fun hc => hk hc.symm]
  exact lookupObj_mergeEntries_not_key E d s t k h

theorem mergeEntries_append (E : Int) (d : Bool) (t : Obj) (a b : Obj) :
    mergeEntries E d t (a ++ b) = mergeEntries E d (mergeEntries E d t a) b := by
  induction a generalizing t with
  | nil => simp [mergeEntries]
  | cons e rest ih =>
      obtain ⟨prop, v⟩ := e
      rw [List.cons_append, mergeEntries, mergeEntries, ih]

/-- A scalar value as the merge stores it (the `"NaN"`/`"-"` → null rule). -/
def scalarStored : GoVal → GoVal
  | .vstr s => if s = "NaN" ∨ s = "-" then .vnull else .vstr s
  | v => v

/-- Scalar dynamic types (`string`, `bool`, and the numeric cases). -/
def GoVal.isScalar : GoVal → Bool
  | .vbool _ | .vint _ | .vfloat _ | .vstr _ => true
  | _ => false

/-- The dynamic types `toInt64` can coerce. -/
def GoVal.isNumeric : GoVal → Bool
  | .vint _ | .vfloat _ => true
  | _ => false

theorem lookupObj_mergeOne_scalar (E : Int) (d : Bool) (t : Obj)
    (prop : String) (v : GoVal) (hv : v.isScalar = true) :
    lookupObj (mergeOne E d t prop v) prop = some (scalarStored v) := by
  cases v with
  | vbool b => simp [mergeOne, scalarStored]
  | vint n => simp [mergeOne, scalarStored]
  | vfloat q => simp [mergeOne, scalarStored]
  | vstr s =>
      by_cases hs : s = "NaN" ∨ s = "-" <;> simp [mergeOne, scalarStored, hs]
  | vnull => simp [GoVal.isScalar] at hv
  | varr xs => simp [GoVal.isScalar] at hv
  | vobj m => simp [GoVal.isScalar] at hv

/-- After merging an object whose entry `(k, v)` is a scalar not shadowed
by a later entry, the target holds the stored scalar at `k`. -/
theorem lookupObj_mergeObject_scalar (E : Int) (d : Bool) (t : Obj)
    (pre post : Obj) (k : String) (v : GoVal) (hv : v.isScalar = true)
    (hk : k ≠ "_epoch") (hpost : ∀ e ∈ post, e.1 ≠ k) :
    lookupObj (mergeObject E d t (pre ++ (k, v) :: post)) k =
      some (scalarStored v) := by
  rw [mergeObject, setEpochObj,
    lookupObj_setKey_ne _ _ _ _ fun hc => hk hc.symm,
    mergeEntries_append, mergeEntries,
    lookupObj_mergeEntries_not_key _ _ _ _ _ hpost]
  exact lookupObj_mergeOne_scalar E d _ k v hv

/-! ## Claim C5 — scalar-over-mapping and mapping-over-scalar merges -/

theorem lookupObj_isNone_false {t : Obj} {k : String} {w : GoVal}
    (h : lookupObj t k = some w) : (lookupObj t k).isNone = false := by
  simp [h]

/-- C5, counterexample: with the store holding `{"k": 5}`, merging
`{"k": {"a": 1}}` leaves the scalar `5` in place and drops the source
sub-mapping — the target is not replaced with a fresh mapping. -/
theorem c5_counterexample :
    lookupObj (mergeData ⟨0, [("k", .vint 5)], []⟩
        (.oneMap [("k", .vobj [("a", .vint 1)])]) true true).data "k" =
      some (.vint 5) ∧
    getByPathObj (mergeData ⟨0, [("k", .vint 5)], []⟩
        (.oneMap [("k", .vobj [("a", .vint 1)])]) true true).data ["k", "a"] =
      none := by
  constructor <;>
    simp [mergeData, normalizeSource, mergeObject, mergeEntries, mergeOne,
      setEpochObj, setKey, lookupObj, getByPathObj]

/-- C5 (amended: outside the reserved keys `quotes` and `_epoch`): a
source scalar landing on a key whose current value is a mapping
replaces the mapping with the stored scalar (`"NaN"`/`"-"` becoming
null); a source mapping landing on a key whose current value exists
but is not a mapping leaves the target value unchanged and the source
sub-mapping is dropped. -/
theorem c5_merge_type_conflicts :
    (∀ (dm : DM) (k : String) (v : GoVal) (m : Obj) (inc d : Bool),
      v.isScalar = true → k ≠ "_epoch" →
      lookupObj dm.data k = some (.vobj m) →
      lookupObj (mergeData dm (.oneMap [(k, v)]) inc d).data k =
        some (scalarStored v)) ∧
    (∀ (dm : DM) (k : String) (sv : Obj) (w : GoVal) (inc d : Bool),
      lookupObj dm.data k = some w → w.isObj = false →
      k ≠ "quotes" → k ≠ "_epoch" →
      lookupObj (mergeData dm (.oneMap [(k, .vobj sv)]) inc d).data k =
        some w) := by
  constructor
  · intro dm k v m inc d hv hk _
    have h1 : [(k, v)] = [] ++ (k, v) :: ([] : Obj) := rfl
    simp only [mergeData, normalizeSource, List.foldl, List.isEmpty,
      Bool.false_eq_true, if_false]
    rw [h1, lookupObj_mergeObject_scalar _ _ _ _ _ _ _ hv hk (by simp)]
  · intro dm k sv w inc d hw hobj hq hk
    simp only [mergeData, normalizeSource, List.foldl, List.isEmpty,
      Bool.false_eq_true, if_false]
    rw [mergeObject, setEpochObj,
      lookupObj_setKey_ne _ _ _ _ fun hc => hk hc.symm, mergeEntries,
      mergeEntries]
    simp only [mergeOne, lookupObj_isNone_false hw, Bool.false_eq_true,
      if_false, if_neg hq, hw]
    cases w <;> simp_all [GoVal.isObj]

/-- C5 witness: both amended behaviors at a concrete store. -/
theorem c5_witness :
    lookupObj (mergeData ⟨0, [("p", .vobj [("q", .vint 1)])], []⟩
        (.oneMap [("p", .vint 9)]) true true).data "p" = some (.vint 9) ∧
    lookupObj (mergeData ⟨0, [("k", .vint 5)], []⟩
        (.oneMap [("k", .vobj [("a", .vint 1)])]) true false).data "k" =
      some (.vint 5) := by
  constructor
  · exact c5_merge_type_conflicts.1 ⟨0, [("p", .vobj [("q", .vint 1)])], []⟩
      "p" (.vint 9) [("q", .vint 1)] true true rfl (by decide) rfl
  · exact c5_merge_type_conflicts.2 ⟨0, [("k", .vint 5)], []⟩ "k"
      [("a", .vint 1)] (.vint 5) true false rfl rfl (by decide) (by decide)

/-! ## Claim C6 — delete-on-null -/

/-- C6, counterexample: at the reserved key `x = "_epoch"` the claim
fails — the merge stamp rewrites `_epoch`, so the key is neither
removed (delete-null on) nor left unchanged (delete-null off). -/
theorem c6_counterexample :
    lookupObj (mergeData ⟨0, [("_epoch", .vint 0)], []⟩
        (.oneMap [("_epoch", .vnull)]) true true).data "_epoch" ≠ none ∧
    lookupObj (mergeData ⟨0, [("_epoch", .vint 0)], []⟩
        (.oneMap [("_epoch", .vnull)]) true false).data "_epoch" ≠
      lookupObj [("_epoch", .vint 0)] "_epoch" := by
  constructor <;>
    simp [mergeData, normalizeSource, mergeObject, mergeEntries, mergeOne,
      setEpochObj, setKey, lookupObj, eraseKey]

/-- C6 (amended: for every key other than the reserved version tag
`_epoch`, which the merge stamp always rewrites): merging the source
`{"x": null}` with `deleteNullObj = true` removes key `x` from the
target mapping; with `deleteNullObj = false` the target's entry for
`x` is unchanged. -/
theorem c6_delete_on_null (dm : DM) (x : String) (inc : Bool)
    (hx : x ≠ "_epoch") :
    lookupObj (mergeData dm (.oneMap [(x, .vnull)]) inc true).data x = none ∧
    lookupObj (mergeData dm (.oneMap [(x, .vnull)]) inc false).data x =
      lookupObj dm.data x := by
  have hx' : "_epoch" ≠ x := fun hc => hx hc.symm
  constructor <;>
    simp [mergeData, normalizeSource, mergeObject, mergeEntries, mergeOne,
      setEpochObj, lookupObj_setKey_ne _ _ _ _ hx']

/-- C6 witness: a concrete key is removed with delete-null on and kept
with delete-null off. -/
theorem c6_witness :
    lookupObj (mergeData ⟨0, [("x", .vint 3), ("y", .vint 4)], []⟩
        (.oneMap [("x", .vnull)]) true true).data "x" = none ∧
    lookupObj (mergeData ⟨0, [("x", .vint 3), ("y", .vint 4)], []⟩
        (.oneMap [("x", .vnull)]) true false).data "x" =
      lookupObj [("x", .vint 3), ("y", .vint 4)] "x" :=
  c6_delete_on_null ⟨0, [("x", .vint 3), ("y", .vint 4)], []⟩ "x" true
    (by decide)

/-! ## Claim C7 — SetDefault idempotence -/

/-- When the path already resolves, `SetDefault` changes nothing and
returns the existing value. -/
theorem setDefault_of_present (d : Obj) (P : List String) (v v2 : GoVal)
    (hP : P ≠ []) (h : getByPathObj d P = some v) :
    setDefault d P v2 = (d, v) := by
  induction P generalizing d with
  | nil => exact absurd rfl hP
  | cons k rest ih =>
      cases rest with
      | nil =>
          simp only [getByPathObj] at h
          simp [setDefault, h]
      | cons k' rest' =>
          simp only [getByPathObj] at h
          cases hl : lookupObj d k with
          | none => rw [hl] at h; exact absurd h (by simp)
          | some w =>
              rw [hl] at h
              cases w with
              | vobj m =>
                  have hrec := ih m (by simp) h
                  simp [setDefault, hl, hrec, setKey_eq_self d k _ hl]
              | vnull => exact absurd h (by simp)
              | vbool b => exact absurd h (by simp)
              | vint n => exact absurd h (by simp)
              | vfloat q => exact absurd h (by simp)
              | vstr s => exact absurd h (by simp)
              | varr xs => exact absurd h (by simp)

/-- C7: once `SetDefault(P, v1)` has stored `v1`, a second call with any
`v2` returns the originally stored `v1` and leaves the document
(including the value at `P`) unmodified. -/
theorem c7_setDefault_idempotent (d : Obj) (P : List String) (v1 v2 : GoVal)
    (hP : P ≠ [])
    (hstored : getByPathObj (setDefault d P v1).1 P = some v1) :
    setDefault (setDefault d P v1).1 P v2 = ((setDefault d P v1).1, v1) :=
  setDefault_of_present _ P v1 v2 hP hstored

/-- C7 witness: store at a fresh two-level path, then call again with a
different value. -/
theorem c7_witness :
    getByPathObj (setDefault [] ["a", "b"] (.vint 7)).1 ["a", "b"] =
      some (.vint 7) ∧
    setDefault (setDefault [] ["a", "b"] (.vint 7)).1 ["a", "b"] (.vint 9) =
      ((setDefault [] ["a", "b"] (.vint 7)).1, .vint 7) := by
  have hs : getByPathObj (setDefault [] ["a", "b"] (.vint 7)).1 ["a", "b"] =
      some (.vint 7) := by
    simp [setDefault, getByPathObj, setKey, lookupObj]
  exact ⟨hs, c7_setDefault_idempotent [] ["a", "b"] (.vint 7) (.vint 9)
    (by simp) hs⟩

/-! ## Claim C9 — epoch-increasing merge of a mapping-free list -/

/-- C9: an epoch-increasing `MergeData` whose source list holds no
mappings still increments the epoch and replaces the diff batch with
the empty normalized list, leaving the document tree untouched. -/
theorem c9_scalar_list_merge (dm : DM) (xs : List GoVal) (d : Bool)
    (h : ∀ v ∈ xs, v.isObj = false) :
    mergeData dm (.arrAny xs) true d = ⟨dm.epoch + 1, dm.data, []⟩ := by
  have hfm : (xs.filterMap fun v =>
      match v with
      | GoVal.vobj m => some m
      | _ => none) = [] := by
    rw [List.filterMap_eq_nil_iff]
    intro v hv
    have hv' := h v hv
    cases v <;> simp_all [GoVal.isObj]
  simp [mergeData, normalizeSource, hfm]

/-- C9 witness: a list of two scalars and a sequence. -/
theorem c9_witness :
    mergeData ⟨2, [("q", .vint 7)], [[("old", .vnull)]]⟩
        (.arrAny [.vint 1, .vstr "a", .varr []]) true true =
      ⟨3, [("q", .vint 7)], []⟩ :=
  c9_scalar_list_merge ⟨2, [("q", .vint 7)], [[("old", .vnull)]]⟩
    [.vint 1, .vstr "a", .varr []] true
    (by intro v hv; simp [List.mem_cons] at hv
        rcases hv with h | h | h <;> subst h <;> rfl)

/-! ## Claim C2 — IsChanging characterization -/

/-- The walk of `IsChanging` succeeds exactly when some inspected hop
value carries the store epoch. -/
theorem isChangingAux_iff (E : Int) (o : Obj) (P : List String) :
    isChangingAux E o P = true ↔
      ∃ v ∈ walkEncounters o P, getEpochVal v = some E := by
  induction P generalizing o with
  | nil => simp [isChangingAux, walkEncounters]
  | cons k rest ih =>
      rw [isChangingAux, walkEncounters]
      cases hl : lookupObj o k with
      | none => simp
      | some v =>
          by_cases he : getEpochVal v = some E
          · simp [he]
          · cases rest with
            | nil => simp [he]
            | cons r rs =>
                cases v with
                | vobj m => simp [he, ih]
                | vnull => simp [he]
                | vbool b => simp [he]
                | vint n => simp [he]
                | vfloat q => simp [he]
                | vstr s => simp [he]
                | varr xs => simp [he]

/-- C2: right after a merge that set the store's epoch (to
`(mergeData …).epoch`), `IsChanging P` returns true iff some mapping
value encountered while walking `P` carries `_epoch` equal to that
epoch; in particular it returns false whenever the walk breaks with no
such hop found. -/
theorem c2_isChanging_iff (dm : DM) (src : MergeSource) (d : Bool)
    (P : List String) :
    (mergeData dm src true d).isChanging P = true ↔
      ∃ v ∈ walkEncounters (mergeData dm src true d).data P,
        getEpochVal v = some (mergeData dm src true d).epoch :=
  isChangingAux_iff _ _ _

/-- C2 witness: a concrete changed path and a concrete broken path after
a concrete merge. -/
theorem c2_witness :
    ((mergeData ⟨0, [], []⟩
        (.oneMap [("quotes", .vobj [("A", .vobj [("p", .vint 1)])])])
        true true).isChanging ["quotes", "A"] = true ↔
      ∃ v ∈ walkEncounters (mergeData ⟨0, [], []⟩
          (.oneMap [("quotes", .vobj [("A", .vobj [("p", .vint 1)])])])
          true true).data ["quotes", "A"],
        getEpochVal v = some (mergeData ⟨0, [], []⟩
          (.oneMap [("quotes", .vobj [("A", .vobj [("p", .vint 1)])])])
          true true).epoch) :=
  c2_isChanging_iff ⟨0, [], []⟩
    (.oneMap [("quotes", .vobj [("A", .vobj [("p", .vint 1)])])]) true
    ["quotes", "A"]

/-! ## Claim C4 — set_chart recording and reconnect replay -/

/-- A `set_chart` request as `SeriesSubscription.sendSetChart` builds it
(src/market.go:213-219): `view_width` is a Go `int`. -/
def c4ChartInt : Obj :=
  [("aid", .vstr "set_chart"), ("chart_id", .vstr "c1"),
   ("ins_list", .vstr "SHFE.au2602"), ("duration", .vint 60000000000),
   ("view_width", .vint 500)]

/-- The same request with a `float64` `view_width` (the type the Send
handler's assertions expect). -/
def c4ChartFloat : Obj :=
  [("aid", .vstr "set_chart"), ("chart_id", .vstr "c1"),
   ("ins_list", .vstr "SHFE.au2602"), ("duration", .vint 60000000000),
   ("view_width", .vfloat 500)]

/-- The unsubscribe request the subscription close path builds
(src/market.go:531-535): `view_width` is the Go `int` 0. -/
def c4ChartIntZero : Obj :=
  [("aid", .vstr "set_chart"), ("chart_id", .vstr "c1"),
   ("ins_list", .vstr ""), ("duration", .vint 60000000000),
   ("view_width", .vint 0)]

/-- C4, the code at the failing input: a `set_chart` whose `view_width`
is the Go `int` 500 is recorded and forwarded, but on reconnect the
recorded chart is NOT re-sent (the `float64` type assertion fails on
an `int`), while the same chart with a `float64` 500 is re-sent; and a
`view_width` Go `int` 0 does not remove the recorded entry — it
overwrites it. -/
theorem c4_reconnect_replay_bug :
    quoteSend ⟨none, []⟩ (.vobj c4ChartInt) =
      (⟨none, [("c1", c4ChartInt)]⟩, [.vobj c4ChartInt]) ∧
    (quoteOnReconnect ⟨none, [("c1", c4ChartInt)]⟩).2 = [] ∧
    (quoteOnReconnect ⟨none, [("c1", c4ChartFloat)]⟩).2 = [.vobj c4ChartFloat] ∧
    (quoteSend ⟨none, [("c1", c4ChartInt)]⟩ (.vobj c4ChartIntZero)).1.charts =
      [("c1", c4ChartIntZero)] := by
  refine ⟨?_, ?_, ?_, ?_⟩ <;>
    simp [quoteSend, quoteOnReconnect, replayCharts, c4ChartInt, c4ChartFloat,
      c4ChartIntZero, lookupObj, setChart, eraseChart]

/-! ## Claims C3 / C10 — series pipeline lemmas -/

theorem seriesView_nil (R vw : Int) : seriesView [] R vw = [] := by
  simp only [seriesView, sortIds, List.insertionSort, List.takeWhile_nil,
    ite_self, trimTrailing, List.length_nil]
  rw [if_neg (by omega)]

theorem getKlinesIds_eq (data : Obj) (dvw : Int) (symbol : String)
    (duration : Int) (w : Option Int) (raw : List Int)
    (h : klinesRawIds data symbol duration = some raw) :
    getKlinesIds data dvw symbol duration w =
      some (seriesView raw (resolveRightId data symbol duration)
        (resolveVW dvw w)) := by
  unfold klinesRawIds at h
  unfold getKlinesIds
  cases h1 : getByPathObj data ["klines", symbol, toString duration] with
  | none => rw [h1] at h; cases h
  | some v =>
      rw [h1] at h
      cases v with
      | vobj dataMap =>
          simp only at h ⊢
          cases h2 : lookupObj dataMap "data" with
          | none =>
              rw [h2] at h
              simp only [Option.some.injEq] at h
              simp [h2, ← h, seriesView_nil]
          | some dv =>
              rw [h2] at h
              cases dv with
              | vobj klineMap =>
                  simp only [Option.some.injEq] at h
                  simp [h2, ← h]
              | vnull =>
                  simp only [Option.some.injEq] at h
                  simp [h2, ← h, seriesView_nil]
              | vbool b =>
                  simp only [Option.some.injEq] at h
                  simp [h2, ← h, seriesView_nil]
              | vint n =>
                  simp only [Option.some.injEq] at h
                  simp [h2, ← h, seriesView_nil]
              | vfloat q =>
                  simp only [Option.some.injEq] at h
                  simp [h2, ← h, seriesView_nil]
              | vstr s =>
                  simp only [Option.some.injEq] at h
                  simp [h2, ← h, seriesView_nil]
              | varr xs =>
                  simp only [Option.some.injEq] at h
                  simp [h2, ← h, seriesView_nil]
      | vnull => cases h
      | vbool b => cases h
      | vint n => cases h
      | vfloat q => cases h
      | vstr s => cases h
      | varr xs => cases h

theorem getTicksIds_eq (data : Obj) (dvw : Int) (symbol : String)
    (w : Option Int) (raw : List Int)
    (h : ticksRawIds data symbol = some raw) :
    getTicksIds data dvw symbol w =
      some (seriesView raw (resolveRightId data symbol 0)
        (resolveVW dvw w)) := by
  unfold ticksRawIds at h
  unfold getTicksIds
  cases h1 : getByPathObj data ["ticks", symbol] with
  | none => rw [h1] at h; cases h
  | some v =>
      rw [h1] at h
      cases v with
      | vobj dataMap =>
          simp only at h ⊢
          cases h2 : lookupObj dataMap "data" with
          | none =>
              rw [h2] at h
              simp only [Option.some.injEq] at h
              simp [h2, ← h, seriesView_nil]
          | some dv =>
              rw [h2] at h
              cases dv with
              | vobj tickMap =>
                  simp only [Option.some.injEq] at h
                  simp [h2, ← h]
              | vnull =>
                  simp only [Option.some.injEq] at h
                  simp [h2, ← h, seriesView_nil]
              | vbool b =>
                  simp only [Option.some.injEq] at h
                  simp [h2, ← h, seriesView_nil]
              | vint n =>
                  simp only [Option.some.injEq] at h
                  simp [h2, ← h, seriesView_nil]
              | vfloat q =>
                  simp only [Option.some.injEq] at h
                  simp [h2, ← h, seriesView_nil]
              | vstr s =>
                  simp only [Option.some.injEq] at h
                  simp [h2, ← h, seriesView_nil]
              | varr xs =>
                  simp only [Option.some.injEq] at h
                  simp [h2, ← h, seriesView_nil]
      | vnull => cases h
      | vbool b => cases h
      | vint n => cases h
      | vfloat q => cases h
      | vstr s => cases h
      | varr xs => cases h

/-- The bounded, strictly ascending, right-capped shape of the pipeline
output under a positive view width, a positive right id and duplicate
free raw ids. -/
theorem seriesView_bounds (raw : List Int) (R W : Int) (hW : 0 < W)
    (hR : 0 < R) (hnd : raw.Nodup) :
    ((seriesView raw R W).length : Int) ≤ W ∧
    (seriesView raw R W).Pairwise (· < ·) ∧
    ∀ i ∈ seriesView raw R W, i ≤ R := by
  have hperm : (sortIds raw).Perm raw := List.perm_insertionSort _ raw
  have hsorted : List.Sorted (· ≤ ·) (sortIds raw) :=
    List.sorted_insertionSort _ raw
  have hndS : (sortIds raw).Nodup := hperm.nodup_iff.mpr hnd
  have hlt : (sortIds raw).Pairwise (· < ·) :=
    (hsorted.and hndS).imp fun h => lt_of_le_of_ne h.1 h.2
  have hview : seriesView raw R W =
      trimTrailing W ((sortIds raw).takeWhile (· ≤ R)) := by
    simp only [seriesView, if_pos hR]
  set flt := (sortIds raw).takeWhile (· ≤ R) with hflt
  have hsub1 : List.Sublist flt (sortIds raw) := List.takeWhile_sublist _
  have hfltlt : flt.Pairwise (· < ·) := hlt.sublist hsub1
  have hfltmem : ∀ i ∈ flt, i ≤ R := by
    intro i hi
    have := List.mem_takeWhile_imp hi
    simpa using this
  rw [hview]
  unfold trimTrailing
  by_cases hc : W > 0 ∧ (flt.length : Int) > W
  · rw [if_pos hc]
    refine ⟨?_, hfltlt.sublist (List.drop_sublist _ _),
      fun i hi => hfltmem i (List.mem_of_mem_drop hi)⟩
    rw [List.length_drop]
    omega
  · rw [if_neg hc]
    exact ⟨by omega, hfltlt, hfltmem⟩

/-- C10: the right-id filter is gated on a strictly positive resolved
right id: whenever the resolved right id is ≤ 0 (no matching chart,
a zero or negative `right_id`, or a non-numeric one — `toInt64`
coerces every non-numeric value to 0), `GetKlinesData` and
`GetTicksData` return the sorted ids unfiltered, with only the
view-width trim applied; with a large enough view width the result is
a permutation of every stored id. -/
theorem c10_rightid_filter_gate :
    (∀ (data : Obj) (dvw : Int) (symbol : String) (duration : Int)
       (w : Option Int) (raw : List Int),
       resolveRightId data symbol duration ≤ 0 →
       klinesRawIds data symbol duration = some raw →
       getKlinesIds data dvw symbol duration w =
         some (trimTrailing (resolveVW dvw w) (sortIds raw))) ∧
    (∀ (data : Obj) (dvw : Int) (symbol : String) (w : Option Int)
       (raw : List Int),
       resolveRightId data symbol 0 ≤ 0 →
       ticksRawIds data symbol = some raw →
       getTicksIds data dvw symbol w =
         some (trimTrailing (resolveVW dvw w) (sortIds raw))) ∧
    (∀ v : GoVal, v.isNumeric = false → toInt64 v = 0) ∧
    (∀ (raw : List Int) (R vw : Int), R ≤ 0 → (raw.length : Int) ≤ vw →
       (seriesView raw R vw).Perm raw) := by
  refine ⟨?_, ?_, ?_, ?_⟩
  · intro data dvw symbol duration w raw hR h
    rw [getKlinesIds_eq data dvw symbol duration w raw h]
    simp only [seriesView, if_neg (by omega : ¬resolveRightId data symbol duration > 0)]
  · intro data dvw symbol w raw hR h
    rw [getTicksIds_eq data dvw symbol w raw h]
    simp only [seriesView, if_neg (by omega : ¬resolveRightId data symbol 0 > 0)]
  · intro v hv
    cases v <;> simp_all [GoVal.isNumeric, toInt64]
  · intro raw R vw hR hlen
    have hperm : (sortIds raw).Perm raw := List.perm_insertionSort _ raw
    simp only [seriesView, if_neg (by omega : ¬R > 0), trimTrailing]
    rw [if_neg (by rw [hperm.length_eq]; omega)]
    exact hperm

/-- The scenario store of the claim: a K-line series with ids 100..110
and a matching chart whose `right_id` is 105. -/
def c3Data : Obj :=
  [("klines", .vobj [("SHFE.au2602", .vobj [("60000000000", .vobj
      [("last_id", .vint 110),
       ("data", .vobj
         [("100", .vobj []), ("101", .vobj []), ("102", .vobj []),
          ("103", .vobj []), ("104", .vobj []), ("105", .vobj []),
          ("106", .vobj []), ("107", .vobj []), ("108", .vobj []),
          ("109", .vobj []), ("110", .vobj [])])])])]),
   ("charts", .vobj [("chart1", .vobj
      [("right_id", .vint 105),
       ("state", .vobj [("ins_list", .vstr "SHFE.au2602"),
                        ("duration", .vint 60000000000)])])])]

/-- C3: with a positive view width `W`, duplicate-free stored ids and a
matching chart resolving to a right id `R > 0`, the K-line view has at
most `W` bars, strictly ascending ids, and no id above `R`; in
particular on the scenario store with view width 4 the returned ids
are exactly `[102, 103, 104, 105]`. -/
theorem c3_klines_view :
    (∀ (data : Obj) (dvw : Int) (symbol : String) (duration W : Int)
       (raw ids : List Int), 0 < W →
       klinesRawIds data symbol duration = some raw → raw.Nodup →
       0 < resolveRightId data symbol duration →
       getKlinesIds data dvw symbol duration (some W) = some ids →
       (ids.length : Int) ≤ W ∧ ids.Pairwise (· < ·) ∧
         ∀ i ∈ ids, i ≤ resolveRightId data symbol duration) ∧
    getKlinesIds c3Data 102400 "SHFE.au2602" 60000000000 (some 4) =
      some [102, 103, 104, 105] := by
  constructor
  · intro data dvw symbol duration W raw ids hW hraw hnd hR hids
    rw [getKlinesIds_eq data dvw symbol duration (some W) raw hraw] at hids
    have hvw : resolveVW dvw (some W) = W := by
      simp [resolveVW, if_pos hW]
    rw [hvw] at hids
    obtain rfl : seriesView raw (resolveRightId data symbol duration) W = ids :=
      Option.some.injEq _ _ ▸ hids
    exact seriesView_bounds raw _ W hW hR hnd
  · decide

/-- C3 witness: the general statement applied at the scenario store. -/
theorem c3_witness :
    (([102, 103, 104, 105] : List Int).length : Int) ≤ 4 ∧
    ([102, 103, 104, 105] : List Int).Pairwise (· < ·) ∧
    ∀ i ∈ ([102, 103, 104, 105] : List Int),
      i ≤ resolveRightId c3Data "SHFE.au2602" 60000000000 :=
  c3_klines_view.1 c3Data 102400 "SHFE.au2602" 60000000000 4
    [100, 101, 102, 103, 104, 105, 106, 107, 108, 109, 110]
    [102, 103, 104, 105] (by decide) (by decide) (by decide) (by decide)
    (by decide)

/-- The C10 scenario store: the matching chart's `right_id` is the
non-numeric string `"x"`, so `toInt64` resolves it to 0 and the filter
is disabled. -/
def c10Data : Obj :=
  [("klines", .vobj [("SHFE.au2602", .vobj [("60000000000", .vobj
      [("last_id", .vint 110),
       ("data", .vobj
         [("100", .vobj []), ("101", .vobj []), ("102", .vobj []),
          ("103", .vobj []), ("104", .vobj []), ("105", .vobj []),
          ("106", .vobj []), ("107", .vobj []), ("108", .vobj []),
          ("109", .vobj []), ("110", .vobj [])])])])]),
   ("charts", .vobj [("chart1", .vobj
      [("right_id", .vstr "x"),
       ("state", .vobj [("ins_list", .vstr "SHFE.au2602"),
                        ("duration", .vint 60000000000)])])])]

/-- C10 witness: with the non-numeric `right_id` the resolved right id
is 0, the filter is off, and every stored id (100..110, beyond the
numeric value 0) is returned. -/
theorem c10_witness :
    resolveRightId c10Data "SHFE.au2602" 60000000000 ≤ 0 ∧
    getKlinesIds c10Data 102400 "SHFE.au2602" 60000000000 (some 100) =
      some [100, 101, 102, 103, 104, 105, 106, 107, 108, 109, 110] := by
  refine ⟨by decide, ?_⟩
  rw [c10_rightid_filter_gate.1 c10Data 102400 "SHFE.au2602" 60000000000
    (some 100) [100, 101, 102, 103, 104, 105, 106, 107, 108, 109, 110]
    (by decide) (by decide)]
  decide

/-! ## Claim C8 — InsertOrder -/

/-- A nested single-key source: `{k₁: {k₂: … {kₙ: leaf}}}`. -/
def chainObj : List String → Obj → Obj
  | [], leaf => leaf
  | k :: ks, leaf => [(k, .vobj (chainObj ks leaf))]

/-- The slots along a key chain are absent or mappings. -/
def chainOk (t : Obj) : List String → Prop
  | [] => True
  | k :: ks =>
      nodeOk (lookupObj t k) ∧
        ∀ m, lookupObj t k = some (.vobj m) → chainOk m ks

theorem chainOk_nil : ∀ ks : List String, chainOk [] ks
  | [] => trivial
  | _ :: _ => ⟨Or.inl rfl, fun m hm => by cases hm⟩

/-- Merging a nested single-key source lands the merged leaf at the end
of the chain (when no chain key is reserved and every slot is absent
or a mapping). -/
theorem nodeAt_mergeObject_chain (E : Int) (d : Bool) (ks : List String)
    (t leaf : Obj)
    (hkeys : ∀ k ∈ ks, k ≠ "quotes" ∧ k ≠ "_epoch")
    (hok : chainOk t ks) :
    ∃ tm : Obj, nodeAt (.vobj (mergeObject E d t (chainObj ks leaf))) ks =
      some (.vobj (mergeObject E d tm leaf)) := by
  induction ks generalizing t with
  | nil => exact ⟨t, by simp [chainObj]⟩
  | cons k ks' ih =>
      obtain ⟨hq, he⟩ := hkeys k (List.mem_cons_self _ _)
      obtain ⟨hok1, hok2⟩ := hok
      have hkeys' : ∀ k' ∈ ks', k' ≠ "quotes" ∧ k' ≠ "_epoch" :=
        fun k' hk' => hkeys k' (List.mem_cons_of_mem _ hk')
      have hstep : ∃ tm0 : Obj,
          lookupObj (mergeObject E d t (chainObj (k :: ks') leaf)) k =
            some (.vobj (mergeObject E d tm0 (chainObj ks' leaf))) ∧
          chainOk tm0 ks' := by
        rw [chainObj, mergeObject, mergeEntries, mergeEntries, setEpochObj,
          lookupObj_setKey_ne _ _ _ _ fun hc => he hc.symm]
        rcases hok1 with hnone | ⟨m, hm⟩
        · refine ⟨[], ?_, chainOk_nil ks'⟩
          simp only [mergeOne, hnone, Option.isNone_none, if_true, if_neg hq,
            lookupObj_setKey_self, lookupObj_setKey_self]
        · refine ⟨m, ?_, hok2 m hm⟩
          simp only [mergeOne, hm, Option.isNone_some, Bool.false_eq_true,
            if_false, if_neg hq, lookupObj_setKey_self]
      obtain ⟨tm0, hlk, hok0⟩ := hstep
      obtain ⟨tm, htm⟩ := ih tm0 hkeys' hok0
      refine ⟨tm, ?_⟩
      rw [nodeAt_obj_cons, hlk]
      exact htm

theorem tqgoId_ne_reserved (r : String) :
    ("TQGO_" ++ r) ≠ "quotes" ∧ ("TQGO_" ++ r) ≠ "_epoch" := by
  constructor <;>
    · intro h
      have h2 := congrArg String.data h
      rw [String.data_append] at h2
      exact absurd h2 (by simp)

/-- C8: a logged-in session's `InsertOrder` sends an envelope with
`volume_condition = "ANY"` and `time_condition = "IOC"` exactly for
market (`"ANY"`) price type, else `"GFD"`; and immediately after, the
session's document holds the synthesized order at
`trade/<user>/orders/<order_id>` with status `ALIVE` and `volume_left`
equal to the requested volume, merged without an epoch increment (the
user id is not a reserved merge key, and the path slots are absent or
mappings). -/
theorem c8_insertOrder (ts : TSState) (req : InsertOrderRequest)
    (rand8 ex ins : String)
    (hlog : ts.loggedIn = true)
    (hsym : goSplitDot req.symbol = [ex, ins])
    (hu1 : ts.userID ≠ "quotes") (hu2 : ts.userID ≠ "_epoch")
    (hok : chainOk ts.dm.data
      ["trade", ts.userID, "orders", "TQGO_" ++ rand8]) :
    ∃ ts' env, insertOrder ts req rand8 = some (ts', env) ∧
      lookupObj env "volume_condition" = some (.vstr "ANY") ∧
      lookupObj env "time_condition" =
        some (.vstr (if req.priceType = "ANY" then "IOC" else "GFD")) ∧
      ts'.dm.epoch = ts.dm.epoch ∧ ts'.dm.diffs = ts.dm.diffs ∧
      ∃ om : Obj,
        getByPathObj ts'.dm.data
          ["trade", ts.userID, "orders", "TQGO_" ++ rand8] =
            some (.vobj om) ∧
        lookupObj om "status" = some (.vstr "ALIVE") ∧
        lookupObj om "volume_left" = some (.vint req.volume) := by
  rw [insertOrder, hlog, hsym]
  simp only [Bool.not_true, Bool.false_eq_true, if_false]
  refine ⟨_, _, rfl, ?_, ?_, ?_, ?_, ?_⟩
  · simp [orderInsertObj, orderCommonObj, lookupObj]
  · simp [orderInsertObj, orderCommonObj, lookupObj]
  · simp [mergeData, normalizeSource]
  · simp [mergeData, normalizeSource]
  · have hsrc :
        [("trade", GoVal.vobj
          [(ts.userID, GoVal.vobj
            [("orders", GoVal.vobj
              [("TQGO_" ++ rand8, GoVal.vobj
                (orderInitObj ts.userID ("TQGO_" ++ rand8) ex ins req))])])])] =
        chainObj ["trade", ts.userID, "orders", "TQGO_" ++ rand8]
          (orderInitObj ts.userID ("TQGO_" ++ rand8) ex ins req) := by
      simp [chainObj]
    have hkeys : ∀ k ∈ ["trade", ts.userID, "orders", "TQGO_" ++ rand8],
        k ≠ "quotes" ∧ k ≠ "_epoch" := by
      intro k hk
      simp only [List.mem_cons, List.not_mem_nil, or_false] at hk
      rcases hk with rfl | rfl | rfl | rfl
      · exact ⟨by decide, by decide⟩
      · exact ⟨hu1, hu2⟩
      · exact ⟨by decide, by decide⟩
      · exact tqgoId_ne_reserved rand8
    obtain ⟨tm, htm⟩ := nodeAt_mergeObject_chain ts.dm.epoch false
      ["trade", ts.userID, "orders", "TQGO_" ++ rand8] ts.dm.data
      (orderInitObj ts.userID ("TQGO_" ++ rand8) ex ins req) hkeys hok
    rw [← hsrc] at htm
    have hstatus : orderInitObj ts.userID ("TQGO_" ++ rand8) ex ins req =
        [("volume_orign", .vint req.volume)] ++
          ("status", .vstr "ALIVE") ::
            (("volume_left", .vint req.volume) ::
              orderCommonObj ts.userID ("TQGO_" ++ rand8) ex ins req) := by
      simp [orderInitObj]
    have hvleft : orderInitObj ts.userID ("TQGO_" ++ rand8) ex ins req =
        [("volume_orign", .vint req.volume), ("status", .vstr "ALIVE")] ++
          ("volume_left", .vint req.volume) ::
            orderCommonObj ts.userID ("TQGO_" ++ rand8) ex ins req := by
      simp [orderInitObj]
    have hcommon : ∀ e ∈ orderCommonObj ts.userID ("TQGO_" ++ rand8) ex ins
        req, e.1 ≠ "status" ∧ e.1 ≠ "volume_left" := by
      intro e he
      simp only [orderCommonObj, List.mem_cons, List.not_mem_nil, or_false]
        at he
      rcases he with rfl | rfl | rfl | rfl | rfl | rfl | rfl | rfl | rfl | rfl
        <;> exact ⟨by simp, by simp⟩
    refine ⟨mergeObject ts.dm.epoch false tm
      (orderInitObj ts.userID ("TQGO_" ++ rand8) ex ins req), ?_, ?_, ?_⟩
    · rw [getByPathObj_eq_nodeAt]
      simp only [mergeData, normalizeSource, List.foldl, List.isEmpty,
        Bool.false_eq_true, if_false]
      exact htm
    · rw [hstatus]
      exact lookupObj_mergeObject_scalar _ _ _
        [("volume_orign", .vint req.volume)] _ "status" (.vstr "ALIVE")
        rfl (by decide)
        (by intro e he
            simp only [List.mem_cons] at he
            rcases he with rfl | he
            · simp
            · exact (hcommon e he).1)
    · rw [hvleft]
      exact lookupObj_mergeObject_scalar _ _ _
        [("volume_orign", .vint req.volume), ("status", .vstr "ALIVE")] _
        "volume_left" (.vint req.volume) rfl (by decide)
        (fun e he => (hcommon e he).2)

/-- C8 witness: a concrete market order on a fresh session store. -/
theorem c8_witness :
    ∃ ts' env,
      insertOrder ⟨true, "user1", ⟨0, [], []⟩⟩
          ⟨"SHFE.au2602", "BUY", "OPEN", "ANY", 0, 3⟩ "abcd1234" =
        some (ts', env) ∧
      lookupObj env "volume_condition" = some (.vstr "ANY") ∧
      lookupObj env "time_condition" =
        some (.vstr (if ("ANY" : String) = "ANY" then "IOC" else "GFD")) ∧
      ts'.dm.epoch = (0 : Int) ∧ ts'.dm.diffs = [] ∧
      ∃ om : Obj,
        getByPathObj ts'.dm.data
          ["trade", "user1", "orders", "TQGO_" ++ "abcd1234"] =
            some (.vobj om) ∧
        lookupObj om "status" = some (.vstr "ALIVE") ∧
        lookupObj om "volume_left" = some (.vint 3) :=
  c8_insertOrder ⟨true, "user1", ⟨0, [], []⟩⟩
    ⟨"SHFE.au2602", "BUY", "OPEN", "ANY", 0, 3⟩ "abcd1234" "SHFE" "au2602"
    rfl (by decide) (by decide) (by decide) (chainOk_nil _)

/-! ## Claim C1 — epoch monotonicity, stamping, and the merge frame -/

theorem nodeAt_lookup_congr {t' t : Obj} {k : String} (ks : List String)
    (h : lookupObj t' k = lookupObj t k) :
    nodeAt (.vobj t') (k :: ks) = nodeAt (.vobj t) (k :: ks) := by
  rw [nodeAt_obj_cons, nodeAt_obj_cons, h]

theorem nodeAt_setKey_self (t : Obj) (k : String) (w : GoVal)
    (ks : List String) :
    nodeAt (.vobj (setKey t k w)) (k :: ks) = nodeAt w ks := by
  rw [nodeAt_obj_cons, lookupObj_setKey_self]

theorem nodeAt_nonobj {w : GoVal} (hw : w.isObj = false) (ks : List String)
    (m : Obj) : nodeAt w ks ≠ some (.vobj m) := by
  cases ks with
  | nil =>
      cases w <;> simp_all [GoVal.isObj]
  | cons k ks' =>
      cases w <;> simp_all [GoVal.isObj, nodeAt]

theorem lookupObj_mergeObject_epoch (E : Int) (d : Bool) (t s : Obj) :
    lookupObj (mergeObject E d t s) "_epoch" = some (.vint E) := by
  rw [mergeObject, setEpochObj, lookupObj_setKey_self]

theorem getLast?_cons_of_ne_nil {α : Type} (k : α) {ks : List α}
    (h : ks ≠ []) : (k :: ks).getLast? = ks.getLast? := by
  cases ks with
  | nil => exact absurd rfl h
  | cons a l => exact List.getLast?_cons_cons

/-- Stamping statement for `mergeEntries`: a path-addressable mapping
changed by the entry loop and not sitting under a final `quotes` key
carries the merge epoch. -/
def StampEntries (E : Int) (d : Bool) (s : Obj) : Prop :=
  ∀ (t : Obj) (k : String) (ks : List String) (m : Obj),
    nodeAt (.vobj (mergeEntries E d t s)) (k :: ks) = some (.vobj m) →
    nodeAt (.vobj t) (k :: ks) ≠ some (.vobj m) →
    (k :: ks).getLast? ≠ some "quotes" →
    lookupObj m "_epoch" = some (.vint E)

/-- Stamping statement for `mergeOne`. -/
def StampOne (E : Int) (d : Bool) (v : GoVal) : Prop :=
  ∀ (t : Obj) (prop k : String) (ks : List String) (m : Obj),
    nodeAt (.vobj (mergeOne E d t prop v)) (k :: ks) = some (.vobj m) →
    nodeAt (.vobj t) (k :: ks) ≠ some (.vobj m) →
    (k :: ks).getLast? ≠ some "quotes" →
    lookupObj m "_epoch" = some (.vint E)

/-- Stamping statement for `mergeQEntries`. -/
def StampQEntries (E : Int) (d : Bool) (s : Obj) : Prop :=
  ∀ (qm : Obj) (k : String) (ks : List String) (m : Obj),
    nodeAt (.vobj (mergeQEntries E d qm s)) (k :: ks) = some (.vobj m) →
    nodeAt (.vobj qm) (k :: ks) ≠ some (.vobj m) →
    (k :: ks).getLast? ≠ some "quotes" →
    lookupObj m "_epoch" = some (.vint E)

/-- Stamping statement for `mergeQOne`. -/
def StampQOne (E : Int) (d : Bool) (qv : GoVal) : Prop :=
  ∀ (qm : Obj) (sym k : String) (ks : List String) (m : Obj),
    nodeAt (.vobj (mergeQOne E d qm sym qv)) (k :: ks) = some (.vobj m) →
    nodeAt (.vobj qm) (k :: ks) ≠ some (.vobj m) →
    (k :: ks).getLast? ≠ some "quotes" →
    lookupObj m "_epoch" = some (.vint E)

/-- The `mergeObject` stamping statement follows from the entry-loop one:
the merged root itself is always stamped, and deeper changed paths go
through the loop. -/
theorem stampObject {E : Int} {d : Bool} {s : Obj}
    (hent : StampEntries E d s) :
    ∀ (t : Obj) (p : List String) (m : Obj),
      nodeAt (.vobj (mergeObject E d t s)) p = some (.vobj m) →
      nodeAt (.vobj t) p ≠ some (.vobj m) →
      p.getLast? ≠ some "quotes" →
      lookupObj m "_epoch" = some (.vint E) := by
  intro t p m h1 h2 h3
  cases p with
  | nil =>
      rw [nodeAt_nil, Option.some.injEq] at h1
      obtain rfl : mergeObject E d t s = m := by
        cases h1; rfl
      exact lookupObj_mergeObject_epoch E d t s
  | cons k ks =>
      by_cases hk : k = "_epoch"
      · subst hk
        rw [mergeObject, setEpochObj, nodeAt_setKey_self] at h1
        exact absurd h1 (nodeAt_nonobj (w := .vint E) rfl ks m)
      · rw [mergeObject, setEpochObj,
          nodeAt_lookup_congr ks
            (lookupObj_setKey_ne _ _ _ _ fun hc => hk hc.symm)] at h1
        exact hent t k ks m h1 h2 h3

theorem stampEntries_of (E : Int) (d : Bool) :
    ∀ s : Obj, (∀ p v, (p, v) ∈ s → StampOne E d v) → StampEntries E d s := by
  intro s
  induction s with
  | nil =>
      intro _ t k ks m h1 h2 _
      rw [mergeEntries] at h1
      exact absurd h1 h2
  | cons e rest ih =>
      obtain ⟨prop, v⟩ := e
      intro hones t k ks m h1 h2 h3
      rw [mergeEntries] at h1
      by_cases hmid :
        nodeAt (.vobj (mergeOne E d t prop v)) (k :: ks) = some (.vobj m)
      · exact hones prop v (List.mem_cons_self _ _) t prop k ks m hmid h2 h3
      · exact ih (fun p w hm => hones p w (List.mem_cons_of_mem _ hm))
          _ k ks m h1 hmid h3

theorem stampQEntries_of (E : Int) (d : Bool) :
    ∀ s : Obj, (∀ sym qv, (sym, qv) ∈ s → StampQOne E d qv) →
      StampQEntries E d s := by
  intro s
  induction s with
  | nil =>
      intro _ qm k ks m h1 h2 _
      rw [mergeQEntries] at h1
      exact absurd h1 h2
  | cons e rest ih =>
      obtain ⟨sym, qv⟩ := e
      intro hones qm k ks m h1 h2 h3
      rw [mergeQEntries] at h1
      by_cases hmid :
        nodeAt (.vobj (mergeQOne E d qm sym qv)) (k :: ks) = some (.vobj m)
      · exact hones sym qv (List.mem_cons_self _ _) qm sym k ks m hmid h2 h3
      · exact ih (fun p w hm => hones p w (List.mem_cons_of_mem _ hm))
          _ k ks m h1 hmid h3

/-- The function `mergeQOne` writes only at its own symbol. -/
theorem lookupObj_mergeQOne_ne (E : Int) (d : Bool) (qm : Obj) (sym : String)
    (qv : GoVal) (k : String) (h : sym ≠ k) :
    lookupObj (mergeQOne E d qm sym qv) k = lookupObj qm k := by
  cases qv with
  | vnull => by_cases hd : d <;> simp [mergeQOne, hd, h]
  | vbool b => simp [mergeQOne]
  | vint n => simp [mergeQOne]
  | vfloat q => simp [mergeQOne]
  | vstr s => simp [mergeQOne]
  | varr xs => simp [mergeQOne]
  | vobj qsv =>
      simp only [mergeQOne]
      by_cases he : (lookupObj qm sym).isNone = true
      · simp only [he, if_true, lookupObj_setKey_self]
        simp [lookupObj_setKey_ne _ _ _ _ h]
      · simp only [he, if_false]
        cases hl : lookupObj qm sym with
        | none => simp [hl] at he
        | some w => cases w <;> simp [hl, lookupObj_setKey_ne _ _ _ _ h]

theorem stampQOne_of (E : Int) (d : Bool) (qv : GoVal)
    (hsub : ∀ qsv : Obj, qv = .vobj qsv → StampEntries E d qsv) :
    StampQOne E d qv := by
  intro qm sym k ks m h1 h2 h3
  by_cases hpk : sym = k
  case neg =>
    rw [nodeAt_lookup_congr ks (lookupObj_mergeQOne_ne E d qm sym qv k hpk)]
      at h1
    exact absurd h1 h2
  case pos =>
    subst hpk
    cases qv with
    | vnull =>
        rw [mergeQOne] at h1
        by_cases hd : d
        · rw [if_pos hd, nodeAt_obj_cons, lookupObj_eraseKey_self] at h1
          exact absurd h1 (by simp)
        · rw [if_neg hd] at h1
          exact absurd h1 h2
    | vbool b => simp only [mergeQOne] at h1; exact absurd h1 h2
    | vint n => simp only [mergeQOne] at h1; exact absurd h1 h2
    | vfloat q => simp only [mergeQOne] at h1; exact absurd h1 h2
    | vstr s => simp only [mergeQOne] at h1; exact absurd h1 h2
    | varr xs => simp only [mergeQOne] at h1; exact absurd h1 h2
    | vobj qsv =>
        simp only [mergeQOne] at h1
        cases hlt : lookupObj qm sym with
        | none =>
            simp only [hlt, Option.isNone_none, if_true,
              lookupObj_setKey_self, nodeAt_setKey_self] at h1
            cases ks with
            | nil =>
                rw [nodeAt_nil, Option.some.injEq] at h1
                obtain rfl : mergeObject E d [] qsv = m := by cases h1; rfl
                exact lookupObj_mergeObject_epoch E d [] qsv
            | cons k' ks' =>
                refine stampObject (hsub qsv rfl) [] (k' :: ks') m h1 ?_ ?_
                · rw [nodeAt_obj_cons]
                  simp [lookupObj]
                · rwa [getLast?_cons_of_ne_nil sym (by simp)] at h3
        | some w =>
            cases w with
            | vobj tq =>
                simp only [hlt, Option.isNone_some, Bool.false_eq_true,
                  if_false, nodeAt_setKey_self] at h1
                cases ks with
                | nil =>
                    rw [nodeAt_nil, Option.some.injEq] at h1
                    obtain rfl : mergeObject E d tq qsv = m := by cases h1; rfl
                    exact lookupObj_mergeObject_epoch E d tq qsv
                | cons k' ks' =>
                    refine stampObject (hsub qsv rfl) tq (k' :: ks') m h1 ?_ ?_
                    · intro hc
                      apply h2
                      rw [nodeAt_obj_cons, hlt]
                      exact hc
                    · rwa [getLast?_cons_of_ne_nil sym (by simp)] at h3
            | vnull =>
                simp only [hlt, Option.isNone_some, Bool.false_eq_true,
                  if_false] at h1
                exact absurd h1 h2
            | vbool b =>
                simp only [hlt, Option.isNone_some, Bool.false_eq_true,
                  if_false] at h1
                exact absurd h1 h2
            | vint n =>
                simp only [hlt, Option.isNone_some, Bool.false_eq_true,
                  if_false] at h1
                exact absurd h1 h2
            | vfloat q =>
                simp only [hlt, Option.isNone_some, Bool.false_eq_true,
                  if_false] at h1
                exact absurd h1 h2
            | vstr s =>
                simp only [hlt, Option.isNone_some, Bool.false_eq_true,
                  if_false] at h1
                exact absurd h1 h2
            | varr xs =>
                simp only [hlt, Option.isNone_some, Bool.false_eq_true,
                  if_false] at h1
                exact absurd h1 h2

theorem stampOne_of (E : Int) (d : Bool) (v : GoVal)
    (hsub : ∀ sv : Obj, v = .vobj sv → StampEntries E d sv)
    (hqsub : ∀ sv : Obj, v = .vobj sv → StampQEntries E d sv) :
    StampOne E d v := by
  intro t prop k ks m h1 h2 h3
  by_cases hpk : prop = k
  case neg =>
    rw [nodeAt_lookup_congr ks (lookupObj_mergeOne_ne E d t prop v k hpk)]
      at h1
    exact absurd h1 h2
  case pos =>
    subst hpk
    cases v with
    | vnull =>
        rw [mergeOne] at h1
        by_cases hd : d
        · rw [if_pos hd, nodeAt_obj_cons, lookupObj_eraseKey_self] at h1
          exact absurd h1 (by simp)
        · rw [if_neg hd] at h1
          exact absurd h1 h2
    | vbool b =>
        simp only [mergeOne, nodeAt_setKey_self] at h1
        exact absurd h1 (nodeAt_nonobj (w := .vbool b) rfl ks m)
    | vint n =>
        simp only [mergeOne, nodeAt_setKey_self] at h1
        exact absurd h1 (nodeAt_nonobj (w := .vint n) rfl ks m)
    | vfloat q =>
        simp only [mergeOne, nodeAt_setKey_self] at h1
        exact absurd h1 (nodeAt_nonobj (w := .vfloat q) rfl ks m)
    | varr xs =>
        simp only [mergeOne, nodeAt_setKey_self] at h1
        exact absurd h1 (nodeAt_nonobj (w := .varr xs) rfl ks m)
    | vstr s =>
        rw [mergeOne] at h1
        by_cases hs : s = "NaN" ∨ s = "-"
        · rw [if_pos hs, nodeAt_setKey_self] at h1
          exact absurd h1 (nodeAt_nonobj (w := .vnull) rfl ks m)
        · rw [if_neg hs, nodeAt_setKey_self] at h1
          exact absurd h1 (nodeAt_nonobj (w := .vstr s) rfl ks m)
    | vobj sv =>
        simp only [mergeOne] at h1
        by_cases hq : prop = "quotes"
        · subst hq
          rw [if_pos rfl] at h1
          cases hlt : lookupObj t "quotes" with
          | none =>
              simp only [hlt, Option.isNone_none, if_true,
                lookupObj_setKey_self, nodeAt_setKey_self] at h1
              cases ks with
              | nil => simp at h3
              | cons k' ks' =>
                  refine hqsub sv rfl [] k' ks' m h1 ?_ ?_
                  · rw [nodeAt_obj_cons]
                    simp [lookupObj]
                  · rwa [getLast?_cons_of_ne_nil _ (by simp)] at h3
          | some w =>
              cases w with
              | vobj q =>
                  simp only [hlt, Option.isNone_some, Bool.false_eq_true,
                    if_false, nodeAt_setKey_self] at h1
                  cases ks with
                  | nil => simp at h3
                  | cons k' ks' =>
                      refine hqsub sv rfl q k' ks' m h1 ?_ ?_
                      · intro hc
                        apply h2
                        rw [nodeAt_obj_cons, hlt]
                        exact hc
                      · rwa [getLast?_cons_of_ne_nil _ (by simp)] at h3
              | vnull =>
                  simp only [hlt, Option.isNone_some, Bool.false_eq_true,
                    if_false, nodeAt_setKey_self] at h1
                  cases ks with
                  | nil => simp at h3
                  | cons k' ks' =>
                      refine hqsub sv rfl [] k' ks' m h1 ?_ ?_
                      · rw [nodeAt_obj_cons]
                        simp [lookupObj]
                      · rwa [getLast?_cons_of_ne_nil _ (by simp)] at h3
              | vbool b =>
                  simp only [hlt, Option.isNone_some, Bool.false_eq_true,
                    if_false, nodeAt_setKey_self] at h1
                  cases ks with
                  | nil => simp at h3
                  | cons k' ks' =>
                      refine hqsub sv rfl [] k' ks' m h1 ?_ ?_
                      · rw [nodeAt_obj_cons]
                        simp [lookupObj]
                      · rwa [getLast?_cons_of_ne_nil _ (by simp)] at h3
              | vint n =>
                  simp only [hlt, Option.isNone_some, Bool.false_eq_true,
                    if_false, nodeAt_setKey_self] at h1
                  cases ks with
                  | nil => simp at h3
                  | cons k' ks' =>
                      refine hqsub sv rfl [] k' ks' m h1 ?_ ?_
                      · rw [nodeAt_obj_cons]
                        simp [lookupObj]
                      · rwa [getLast?_cons_of_ne_nil _ (by simp)] at h3
              | vfloat qq =>
                  simp only [hlt, Option.isNone_some, Bool.false_eq_true,
                    if_false, nodeAt_setKey_self] at h1
                  cases ks with
                  | nil => simp at h3
                  | cons k' ks' =>
                      refine hqsub sv rfl [] k' ks' m h1 ?_ ?_
                      · rw [nodeAt_obj_cons]
                        simp [lookupObj]
                      · rwa [getLast?_cons_of_ne_nil _ (by simp)] at h3
              | vstr s =>
                  simp only [hlt, Option.isNone_some, Bool.false_eq_true,
                    if_false, nodeAt_setKey_self] at h1
                  cases ks with
                  | nil => simp at h3
                  | cons k' ks' =>
                      refine hqsub sv rfl [] k' ks' m h1 ?_ ?_
                      · rw [nodeAt_obj_cons]
                        simp [lookupObj]
                      · rwa [getLast?_cons_of_ne_nil _ (by simp)] at h3
              | varr xs =>
                  simp only [hlt, Option.isNone_some, Bool.false_eq_true,
                    if_false, nodeAt_setKey_self] at h1
                  cases ks with
                  | nil => simp at h3
                  | cons k' ks' =>
                      refine hqsub sv rfl [] k' ks' m h1 ?_ ?_
                      · rw [nodeAt_obj_cons]
                        simp [lookupObj]
                      · rwa [getLast?_cons_of_ne_nil _ (by simp)] at h3
        · rw [if_neg hq] at h1
          cases hlt : lookupObj t prop with
          | none =>
              simp only [hlt, Option.isNone_none, if_true,
                lookupObj_setKey_self, nodeAt_setKey_self] at h1
              cases ks with
              | nil =>
                  rw [nodeAt_nil, Option.some.injEq] at h1
                  obtain rfl : mergeObject E d [] sv = m := by cases h1; rfl
                  exact lookupObj_mergeObject_epoch E d [] sv
              | cons k' ks' =>
                  refine stampObject (hsub sv rfl) [] (k' :: ks') m h1 ?_ ?_
                  · rw [nodeAt_obj_cons]
                    simp [lookupObj]
                  · rwa [getLast?_cons_of_ne_nil _ (by simp)] at h3
          | some w =>
              cases w with
              | vobj tm =>
                  simp only [hlt, Option.isNone_some, Bool.false_eq_true,
                    if_false, nodeAt_setKey_self] at h1
                  cases ks with
                  | nil =>
                      rw [nodeAt_nil, Option.some.injEq] at h1
                      obtain rfl : mergeObject E d tm sv = m := by
                        cases h1; rfl
                      exact lookupObj_mergeObject_epoch E d tm sv
                  | cons k' ks' =>
                      refine stampObject (hsub sv rfl) tm (k' :: ks') m h1
                        ?_ ?_
                      · intro hc
                        apply h2
                        rw [nodeAt_obj_cons, hlt]
                        exact hc
                      · rwa [getLast?_cons_of_ne_nil _ (by simp)] at h3
              | vnull =>
                  simp only [hlt, Option.isNone_some, Bool.false_eq_true,
                    if_false] at h1
                  exact absurd h1 h2
              | vbool b =>
                  simp only [hlt, Option.isNone_some, Bool.false_eq_true,
                    if_false] at h1
                  exact absurd h1 h2
              | vint n =>
                  simp only [hlt, Option.isNone_some, Bool.false_eq_true,
                    if_false] at h1
                  exact absurd h1 h2
              | vfloat qq =>
                  simp only [hlt, Option.isNone_some, Bool.false_eq_true,
                    if_false] at h1
                  exact absurd h1 h2
              | vstr s =>
                  simp only [hlt, Option.isNone_some, Bool.false_eq_true,
                    if_false] at h1
                  exact absurd h1 h2
              | varr xs =>
                  simp only [hlt, Option.isNone_some, Bool.false_eq_true,
                    if_false] at h1
                  exact absurd h1 h2

theorem stampOne_all (E : Int) (d : Bool) :
    ∀ (n : Nat) (v : GoVal), sizeOf v ≤ n → StampOne E d v := by
  intro n
  induction n using Nat.strong_induction_on with
  | _ n ih =>
      intro v hv
      refine stampOne_of E d v ?_ ?_
      · rintro sv rfl
        have hsz : sizeOf sv < n := by
          have : sizeOf (GoVal.vobj sv) = 1 + sizeOf sv := by
            simp [GoVal.vobj.sizeOf_spec]
          omega
        refine stampEntries_of E d sv ?_
        intro p w hm
        have h1 := List.sizeOf_lt_of_mem hm
        have h2 : sizeOf (p, w) = 1 + sizeOf p + sizeOf w := rfl
        exact ih (sizeOf w) (by omega) w le_rfl
      · rintro sv rfl
        have hsz : sizeOf sv < n := by
          have : sizeOf (GoVal.vobj sv) = 1 + sizeOf sv := by
            simp [GoVal.vobj.sizeOf_spec]
          omega
        refine stampQEntries_of E d sv ?_
        intro sym qv hm
        have h1 := List.sizeOf_lt_of_mem hm
        have h2 : sizeOf (sym, qv) = 1 + sizeOf sym + sizeOf qv := rfl
        refine stampQOne_of E d qv ?_
        rintro qsv rfl
        have h3 : sizeOf (GoVal.vobj qsv) = 1 + sizeOf qsv := by
          simp [GoVal.vobj.sizeOf_spec]
        refine stampEntries_of E d qsv ?_
        intro p w hw
        have h4 := List.sizeOf_lt_of_mem hw
        have h5 : sizeOf (p, w) = 1 + sizeOf p + sizeOf w := rfl
        exact ih (sizeOf w) (by omega) w le_rfl

theorem stampEntries_all (E : Int) (d : Bool) (s : Obj) :
    StampEntries E d s :=
  stampEntries_of E d s fun _ v _ => stampOne_all E d (sizeOf v) v le_rfl

/-- Frame statement for `mergeEntries`: a path the touch predicate rules
out reads the same under the entry loop. -/
def FrameEntries (E : Int) (d : Bool) (s : Obj) : Prop :=
  ∀ (t : Obj) (k : String) (ks : List String), k ≠ "_epoch" →
    touchesEntriesAt d s k ks = false →
    nodeAt (.vobj (mergeEntries E d t s)) (k :: ks) =
      nodeAt (.vobj t) (k :: ks)

/-- Frame statement for `mergeOne`. -/
def FrameOne (E : Int) (d : Bool) (v : GoVal) : Prop :=
  ∀ (t : Obj) (prop k : String) (ks : List String), k ≠ "_epoch" →
    (prop = k → touchesVal d k v ks = false) →
    nodeAt (.vobj (mergeOne E d t prop v)) (k :: ks) =
      nodeAt (.vobj t) (k :: ks)

/-- Frame statement for `mergeQEntries`. -/
def FrameQEntries (E : Int) (d : Bool) (s : Obj) : Prop :=
  ∀ (qm : Obj) (sym : String) (ks' : List String),
    touchesQuoteAt d s sym ks' = false →
    nodeAt (.vobj (mergeQEntries E d qm s)) (sym :: ks') =
      nodeAt (.vobj qm) (sym :: ks')

/-- Frame statement for `mergeQOne`. -/
def FrameQOne (E : Int) (d : Bool) (qv : GoVal) : Prop :=
  ∀ (qm : Obj) (sym' sym : String) (ks' : List String),
    (sym' = sym → touchesQVal d qv ks' = false) →
    nodeAt (.vobj (mergeQOne E d qm sym' qv)) (sym :: ks') =
      nodeAt (.vobj qm) (sym :: ks')

/-- The `mergeObject` frame follows from the entry-loop frame. -/
theorem frameObject {E : Int} {d : Bool} {s : Obj}
    (hent : FrameEntries E d s) :
    ∀ (t : Obj) (p : List String), touchesMerge d s p = false →
      nodeAt (.vobj (mergeObject E d t s)) p = nodeAt (.vobj t) p := by
  intro t p hp
  cases p with
  | nil => rw [touchesMerge] at hp; cases hp
  | cons k ks =>
      rw [touchesMerge, Bool.or_eq_false_iff] at hp
      obtain ⟨hk, hent'⟩ := hp
      have hk' : k ≠ "_epoch" := by simpa using hk
      rw [mergeObject, setEpochObj,
        nodeAt_lookup_congr ks
          (lookupObj_setKey_ne _ _ _ _ fun hc => hk' hc.symm)]
      exact hent t k ks hk' hent'

theorem frameEntries_of (E : Int) (d : Bool) :
    ∀ s : Obj, (∀ p v, (p, v) ∈ s → FrameOne E d v) → FrameEntries E d s := by
  intro s
  induction s with
  | nil => intro _ t k ks _ _; rw [mergeEntries]
  | cons e rest ih =>
      obtain ⟨prop, v⟩ := e
      intro hones t k ks hk htc
      rw [touchesEntriesAt, Bool.or_eq_false_iff, Bool.and_eq_false_iff]
        at htc
      obtain ⟨hhead, hrest⟩ := htc
      rw [mergeEntries,
        ih (fun p w hm => hones p w (List.mem_cons_of_mem _ hm)) _ k ks hk
          hrest]
      refine hones prop v (List.mem_cons_self _ _) t prop k ks hk ?_
      intro hpk
      rcases hhead with h | h
      · exact absurd hpk (by simpa using h)
      · exact h

theorem frameQEntries_of (E : Int) (d : Bool) :
    ∀ s : Obj, (∀ sym qv, (sym, qv) ∈ s → FrameQOne E d qv) →
      FrameQEntries E d s := by
  intro s
  induction s with
  | nil => intro _ qm sym ks' _; rw [mergeQEntries]
  | cons e rest ih =>
      obtain ⟨sym0, qv⟩ := e
      intro hones qm sym ks' htc
      rw [touchesQuoteAt, Bool.or_eq_false_iff, Bool.and_eq_false_iff] at htc
      obtain ⟨hhead, hrest⟩ := htc
      rw [mergeQEntries,
        ih (fun p w hm => hones p w (List.mem_cons_of_mem _ hm)) _ sym ks'
          hrest]
      refine hones sym0 qv (List.mem_cons_self _ _) qm sym0 sym ks' ?_
      intro hpk
      rcases hhead with h | h
      · exact absurd hpk (by simpa using h)
      · exact h

theorem frameQOne_of (E : Int) (d : Bool) (qv : GoVal)
    (hsub : ∀ qsv : Obj, qv = .vobj qsv → FrameEntries E d qsv) :
    FrameQOne E d qv := by
  intro qm sym' sym ks' hqv
  by_cases hpk : sym' = sym
  case neg =>
    exact nodeAt_lookup_congr ks' (lookupObj_mergeQOne_ne E d qm sym' qv sym
      hpk)
  case pos =>
    subst hpk
    cases qv with
    | vnull =>
        have hd : d = false := by simpa [touchesQVal] using hqv rfl
        rw [mergeQOne, hd, if_neg (by simp)]
    | vbool b => simp only [mergeQOne]
    | vint n => simp only [mergeQOne]
    | vfloat q => simp only [mergeQOne]
    | vstr s => simp only [mergeQOne]
    | varr xs => simp only [mergeQOne]
    | vobj qsv =>
        have htm : touchesMerge d qsv ks' = false := by
          simpa [touchesQVal] using hqv rfl
        have hks : ks' ≠ [] := by
          intro hc
          subst hc
          rw [touchesMerge] at htm
          cases htm
        simp only [mergeQOne]
        cases hlt : lookupObj qm sym' with
        | none =>
            simp only [hlt, Option.isNone_none, if_true,
              lookupObj_setKey_self, nodeAt_setKey_self]
            rw [frameObject (hsub qsv rfl) [] ks' htm]
            rw [nodeAt_obj_cons, hlt]
            cases ks' with
            | nil => exact absurd rfl hks
            | cons a l => rw [nodeAt_obj_cons]; simp [lookupObj]
        | some w =>
            cases w with
            | vobj tq =>
                simp only [hlt, Option.isNone_some, Bool.false_eq_true,
                  if_false, nodeAt_setKey_self]
                rw [frameObject (hsub qsv rfl) tq ks' htm, nodeAt_obj_cons,
                  hlt]
            | vnull =>
                simp only [hlt, Option.isNone_some, Bool.false_eq_true,
                  if_false]
            | vbool b =>
                simp only [hlt, Option.isNone_some, Bool.false_eq_true,
                  if_false]
            | vint n =>
                simp only [hlt, Option.isNone_some, Bool.false_eq_true,
                  if_false]
            | vfloat q =>
                simp only [hlt, Option.isNone_some, Bool.false_eq_true,
                  if_false]
            | vstr s =>
                simp only [hlt, Option.isNone_some, Bool.false_eq_true,
                  if_false]
            | varr xs =>
                simp only [hlt, Option.isNone_some, Bool.false_eq_true,
                  if_false]

theorem frameOne_of (E : Int) (d : Bool) (v : GoVal)
    (hsub : ∀ sv : Obj, v = .vobj sv → FrameEntries E d sv)
    (hqsub : ∀ sv : Obj, v = .vobj sv → FrameQEntries E d sv) :
    FrameOne E d v := by
  intro t prop k ks hk htv
  by_cases hpk : prop = k
  case neg =>
    exact nodeAt_lookup_congr ks (lookupObj_mergeOne_ne E d t prop v k hpk)
  case pos =>
    subst hpk
    cases v with
    | vnull =>
        have hd : d = false := by simpa [touchesVal] using htv rfl
        rw [mergeOne, hd, if_neg (by simp)]
    | vbool b => exact absurd (htv rfl) (by simp [touchesVal])
    | vint n => exact absurd (htv rfl) (by simp [touchesVal])
    | vfloat q => exact absurd (htv rfl) (by simp [touchesVal])
    | vstr s => exact absurd (htv rfl) (by simp [touchesVal])
    | varr xs => exact absurd (htv rfl) (by simp [touchesVal])
    | vobj sv =>
        simp only [mergeOne]
        by_cases hq : prop = "quotes"
        · rw [if_pos hq]
          subst hq
          cases ks with
          | nil => exact absurd (htv rfl) (by simp [touchesVal])
          | cons sym ks' =>
              have htq : touchesQuoteAt d sv sym ks' = false := by
                simpa [touchesVal] using htv rfl
              cases hlt : lookupObj t "quotes" with
              | none =>
                  simp only [hlt, Option.isNone_none, if_true,
                    lookupObj_setKey_self, nodeAt_setKey_self]
                  rw [hqsub sv rfl [] sym ks' htq]
                  have hrhs : nodeAt (.vobj t) ("quotes" :: sym :: ks') =
                      none := by rw [nodeAt_obj_cons, hlt]
                  rw [hrhs, nodeAt_obj_cons]
                  simp [lookupObj]
              | some w =>
                  cases w with
                  | vobj q =>
                      simp only [hlt, Option.isNone_some, Bool.false_eq_true,
                        if_false, nodeAt_setKey_self]
                      rw [hqsub sv rfl q sym ks' htq]
                      have hrhs : nodeAt (.vobj t) ("quotes" :: sym :: ks') =
                          nodeAt (.vobj q) (sym :: ks') := by
                        rw [nodeAt_obj_cons, hlt]
                      rw [hrhs]
                  | vnull =>
                      simp only [hlt, Option.isNone_some, Bool.false_eq_true,
                        if_false, nodeAt_setKey_self]
                      rw [hqsub sv rfl [] sym ks' htq]
                      have hrhs : nodeAt (.vobj t) ("quotes" :: sym :: ks') =
                          none := by rw [nodeAt_obj_cons, hlt]; simp [nodeAt]
                      rw [hrhs, nodeAt_obj_cons]
                      simp [lookupObj]
                  | vbool b =>
                      simp only [hlt, Option.isNone_some, Bool.false_eq_true,
                        if_false, nodeAt_setKey_self]
                      rw [hqsub sv rfl [] sym ks' htq]
                      have hrhs : nodeAt (.vobj t) ("quotes" :: sym :: ks') =
                          none := by rw [nodeAt_obj_cons, hlt]; simp [nodeAt]
                      rw [hrhs, nodeAt_obj_cons]
                      simp [lookupObj]
                  | vint n =>
                      simp only [hlt, Option.isNone_some, Bool.false_eq_true,
                        if_false, nodeAt_setKey_self]
                      rw [hqsub sv rfl [] sym ks' htq]
                      have hrhs : nodeAt (.vobj t) ("quotes" :: sym :: ks') =
                          none := by rw [nodeAt_obj_cons, hlt]; simp [nodeAt]
                      rw [hrhs, nodeAt_obj_cons]
                      simp [lookupObj]
                  | vfloat qq =>
                      simp only [hlt, Option.isNone_some, Bool.false_eq_true,
                        if_false, nodeAt_setKey_self]
                      rw [hqsub sv rfl [] sym ks' htq]
                      have hrhs : nodeAt (.vobj t) ("quotes" :: sym :: ks') =
                          none := by rw [nodeAt_obj_cons, hlt]; simp [nodeAt]
                      rw [hrhs, nodeAt_obj_cons]
                      simp [lookupObj]
                  | vstr s =>
                      simp only [hlt, Option.isNone_some, Bool.false_eq_true,
                        if_false, nodeAt_setKey_self]
                      rw [hqsub sv rfl [] sym ks' htq]
                      have hrhs : nodeAt (.vobj t) ("quotes" :: sym :: ks') =
                          none := by rw [nodeAt_obj_cons, hlt]; simp [nodeAt]
                      rw [hrhs, nodeAt_obj_cons]
                      simp [lookupObj]
                  | varr xs =>
                      simp only [hlt, Option.isNone_some, Bool.false_eq_true,
                        if_false, nodeAt_setKey_self]
                      rw [hqsub sv rfl [] sym ks' htq]
                      have hrhs : nodeAt (.vobj t) ("quotes" :: sym :: ks') =
                          none := by rw [nodeAt_obj_cons, hlt]; simp [nodeAt]
                      rw [hrhs, nodeAt_obj_cons]
                      simp [lookupObj]
        · rw [if_neg hq]
          have htm : touchesMerge d sv ks = false := by
            have h0 := htv rfl
            unfold touchesVal at h0
            rw [if_neg hq] at h0
            exact h0
          have hks : ks ≠ [] := by
            intro hc
            subst hc
            rw [touchesMerge] at htm
            cases htm
          cases hlt : lookupObj t prop with
          | none =>
              simp only [hlt, Option.isNone_none, if_true,
                lookupObj_setKey_self, nodeAt_setKey_self]
              rw [frameObject (hsub sv rfl) [] ks htm, nodeAt_obj_cons, hlt]
              cases ks with
              | nil => exact absurd rfl hks
              | cons a l => rw [nodeAt_obj_cons]; simp [lookupObj]
          | some w =>
              cases w with
              | vobj tm =>
                  simp only [hlt, Option.isNone_some, Bool.false_eq_true,
                    if_false, nodeAt_setKey_self]
                  rw [frameObject (hsub sv rfl) tm ks htm, nodeAt_obj_cons,
                    hlt]
              | vnull =>
                  simp only [hlt, Option.isNone_some, Bool.false_eq_true,
                    if_false]
              | vbool b =>
                  simp only [hlt, Option.isNone_some, Bool.false_eq_true,
                    if_false]
              | vint n =>
                  simp only [hlt, Option.isNone_some, Bool.false_eq_true,
                    if_false]
              | vfloat qq =>
                  simp only [hlt, Option.isNone_some, Bool.false_eq_true,
                    if_false]
              | vstr s =>
                  simp only [hlt, Option.isNone_some, Bool.false_eq_true,
                    if_false]
              | varr xs =>
                  simp only [hlt, Option.isNone_some, Bool.false_eq_true,
                    if_false]

theorem frameOne_all (E : Int) (d : Bool) :
    ∀ (n : Nat) (v : GoVal), sizeOf v ≤ n → FrameOne E d v := by
  intro n
  induction n using Nat.strong_induction_on with
  | _ n ih =>
      intro v hv
      refine frameOne_of E d v ?_ ?_
      · rintro sv rfl
        have hsz : sizeOf sv < n := by
          have : sizeOf (GoVal.vobj sv) = 1 + sizeOf sv := by
            simp [GoVal.vobj.sizeOf_spec]
          omega
        refine frameEntries_of E d sv ?_
        intro p w hm
        have h1 := List.sizeOf_lt_of_mem hm
        have h2 : sizeOf (p, w) = 1 + sizeOf p + sizeOf w := rfl
        exact ih (sizeOf w) (by omega) w le_rfl
      · rintro sv rfl
        have hsz : sizeOf sv < n := by
          have : sizeOf (GoVal.vobj sv) = 1 + sizeOf sv := by
            simp [GoVal.vobj.sizeOf_spec]
          omega
        refine frameQEntries_of E d sv ?_
        intro sym qv hm
        have h1 := List.sizeOf_lt_of_mem hm
        have h2 : sizeOf (sym, qv) = 1 + sizeOf sym + sizeOf qv := rfl
        refine frameQOne_of E d qv ?_
        rintro qsv rfl
        have h3 : sizeOf (GoVal.vobj qsv) = 1 + sizeOf qsv := by
          simp [GoVal.vobj.sizeOf_spec]
        refine frameEntries_of E d qsv ?_
        intro p w hw
        have h4 := List.sizeOf_lt_of_mem hw
        have h5 : sizeOf (p, w) = 1 + sizeOf p + sizeOf w := rfl
        exact ih (sizeOf w) (by omega) w le_rfl

theorem frameEntries_all (E : Int) (d : Bool) (s : Obj) :
    FrameEntries E d s :=
  frameEntries_of E d s fun _ v _ => frameOne_all E d (sizeOf v) v le_rfl

theorem stampFold (E : Int) (d : Bool) :
    ∀ (arr : List Obj) (t : Obj) (p : List String) (m : Obj),
      nodeAt (.vobj (arr.foldl (fun acc item =>
        if item.isEmpty then acc else mergeObject E d acc item) t)) p =
        some (.vobj m) →
      nodeAt (.vobj t) p ≠ some (.vobj m) →
      p.getLast? ≠ some "quotes" →
      lookupObj m "_epoch" = some (.vint E) := by
  intro arr
  induction arr with
  | nil =>
      intro t p m h1 h2 _
      rw [List.foldl_nil] at h1
      exact absurd h1 h2
  | cons item rest ih =>
      intro t p m h1 h2 h3
      rw [List.foldl_cons] at h1
      by_cases hmid : nodeAt (.vobj (if item.isEmpty then t
          else mergeObject E d t item)) p = some (.vobj m)
      · by_cases hemp : item.isEmpty
        · rw [if_pos hemp] at hmid
          exact absurd hmid h2
        · rw [if_neg hemp] at hmid
          exact stampObject (stampEntries_all E d item) t p m hmid h2 h3
      · exact ih _ p m h1 hmid h3

theorem frameFold (E : Int) (d : Bool) :
    ∀ (arr : List Obj) (t : Obj) (p : List String),
      touchesAny d arr p = false →
      nodeAt (.vobj (arr.foldl (fun acc item =>
        if item.isEmpty then acc else mergeObject E d acc item) t)) p =
        nodeAt (.vobj t) p := by
  intro arr
  induction arr with
  | nil => intro t p _; rw [List.foldl_nil]
  | cons item rest ih =>
      intro t p htc
      simp only [touchesAny, List.any_cons, Bool.or_eq_false_iff,
        Bool.and_eq_false_iff] at htc
      obtain ⟨hhead, hrest⟩ := htc
      rw [List.foldl_cons, ih _ p (by simpa [touchesAny] using hrest)]
      by_cases hemp : item.isEmpty
      · rw [if_pos hemp]
      · rw [if_neg hemp]
        refine frameObject (frameEntries_all E d item) t p ?_
        rcases hhead with h | h
        · simp [hemp] at h
        · exact h

/-- C1, counterexample: one epoch-increasing merge of
`{"quotes": {"A": {"p": 1}}}` into an empty store modifies the quotes
container (it gains the key `"A"`), yet the container carries no
`_epoch` tag at all — while the store epoch is 1. -/
theorem c1_counterexample :
    (mergeData ⟨0, [], []⟩
      (.oneMap [("quotes", .vobj [("A", .vobj [("p", .vint 1)])])])
      true true).epoch = 1 ∧
    ∃ qm : Obj,
      nodeAt (.vobj (mergeData ⟨0, [], []⟩
        (.oneMap [("quotes", .vobj [("A", .vobj [("p", .vint 1)])])])
        true true).data) ["quotes"] = some (.vobj qm) ∧
      nodeAt (.vobj ([] : Obj)) ["quotes"] ≠ some (.vobj qm) ∧
      lookupObj qm "_epoch" = none := by
  refine ⟨by simp [mergeData, normalizeSource], ?_⟩
  refine ⟨[("A", .vobj [("p", .vint 1), ("_epoch", .vint 1)])], ?_, ?_, ?_⟩
  · simp [mergeData, normalizeSource, mergeObject, mergeEntries, mergeOne,
      mergeQEntries, mergeQOne, setEpochObj, setKey, lookupObj,
      nodeAt_obj_cons]
  · simp [nodeAt_obj_cons, lookupObj]
  · simp [lookupObj]

/-- C1 (amended: mapping nodes stored under the reserved key `quotes`
are modified by the specialized quotes path without receiving a stamp,
and are excluded): an epoch-increasing merge whose source normalizes
increments the store epoch by exactly one; afterwards every
path-addressable mapping node that differs from the pre-merge tree and
does not sit under a final `quotes` key carries `_epoch` equal to the
new epoch; and every path the merge's write footprint rules out is
unchanged (so untouched mappings keep their prior `_epoch`). -/
theorem c1_epoch_merge (dm : DM) (src : MergeSource) (dnull : Bool)
    (arr : List Obj) (hnorm : normalizeSource src = some arr) :
    (mergeData dm src true dnull).epoch = dm.epoch + 1 ∧
    (∀ (p : List String) (m : Obj),
      nodeAt (.vobj (mergeData dm src true dnull).data) p =
        some (.vobj m) →
      nodeAt (.vobj dm.data) p ≠ some (.vobj m) →
      p.getLast? ≠ some "quotes" →
      lookupObj m "_epoch" = some (.vint (dm.epoch + 1))) ∧
    (∀ p : List String, touchesAny dnull arr p = false →
      nodeAt (.vobj (mergeData dm src true dnull).data) p =
        nodeAt (.vobj dm.data) p) := by
  simp only [mergeData, hnorm, if_true]
  exact ⟨trivial,
    fun p m h1 h2 h3 => stampFold (dm.epoch + 1) dnull arr dm.data p m h1 h2 h3,
    fun p hp => frameFold (dm.epoch + 1) dnull arr dm.data p hp⟩

/-- C1 witness: a two-key store; the merged key is stamped with the new
epoch 1, the untouched key keeps its subtree (and so its old epoch). -/
theorem c1_witness :
    normalizeSource (.oneMap [("a", .vobj [("y", .vint 2)])]) =
      some [[("a", .vobj [("y", .vint 2)])]] ∧
    (mergeData ⟨0, [("a", .vobj [("x", .vint 1)]),
        ("keep", .vobj [("_epoch", .vint 0)])], []⟩
      (.oneMap [("a", .vobj [("y", .vint 2)])]) true true).epoch = 0 + 1 ∧
    lookupObj [("x", .vint 1), ("y", .vint 2), ("_epoch", .vint 1)]
      "_epoch" = some (.vint (0 + 1)) ∧
    nodeAt (.vobj (mergeData ⟨0, [("a", .vobj [("x", .vint 1)]),
        ("keep", .vobj [("_epoch", .vint 0)])], []⟩
      (.oneMap [("a", .vobj [("y", .vint 2)])]) true true).data) ["keep"] =
      nodeAt (.vobj [("a", .vobj [("x", .vint 1)]),
        ("keep", .vobj [("_epoch", .vint 0)])]) ["keep"] := by
  refine ⟨rfl, ?_, ?_, ?_⟩
  · exact (c1_epoch_merge ⟨0, [("a", .vobj [("x", .vint 1)]),
      ("keep", .vobj [("_epoch", .vint 0)])], []⟩
      (.oneMap [("a", .vobj [("y", .vint 2)])]) true
      [[("a", .vobj [("y", .vint 2)])]] rfl).1
  · refine (c1_epoch_merge ⟨0, [("a", .vobj [("x", .vint 1)]),
      ("keep", .vobj [("_epoch", .vint 0)])], []⟩
      (.oneMap [("a", .vobj [("y", .vint 2)])]) true
      [[("a", .vobj [("y", .vint 2)])]] rfl).2.1 ["a"]
      [("x", .vint 1), ("y", .vint 2), ("_epoch", .vint 1)] ?_ ?_ ?_
    · simp [mergeData, normalizeSource, mergeObject, mergeEntries, mergeOne,
        setEpochObj, setKey, lookupObj, nodeAt_obj_cons]
    · simp [nodeAt_obj_cons, lookupObj]
    · simp
  · refine (c1_epoch_merge ⟨0, [("a", .vobj [("x", .vint 1)]),
      ("keep", .vobj [("_epoch", .vint 0)])], []⟩
      (.oneMap [("a", .vobj [("y", .vint 2)])]) true
      [[("a", .vobj [("y", .vint 2)])]] rfl).2.2 ["keep"] ?_
    simp [touchesAny, touchesMerge, touchesEntriesAt, touchesVal]

end TqGo
